import Mathlib

/-!
Shallow embedding of the AI-Stock-Assistance indicator/signal engine,
backtester, risk manager and portfolio allocator.

Modelling conventions:
* Python floats are modelled by `ℚ` (exact arithmetic).
* A pandas `NaN` / Python `None` value is modelled by `Option ℚ` with `none`.
* `pandas.Series` objects are modelled as `List ℚ` / index functions.
* The rolling standard deviation needs a square root, which `ℚ` does not
  have; the pipeline is parameterised by a function `sq : ℚ → ℚ` standing
  for the square root.  Every theorem either holds for all `sq` or assumes
  only `sq 0 = 0`, which any square-root function satisfies.
* Python `int(x)` (truncation toward zero) is `truncQ`.
* Python truthiness of a float (`if x:` is false for `0.0` and `None`)
  is modelled explicitly where the source relies on it.
-/

namespace StockAssist

/-- Truncation toward zero, the semantics of Python `int()` on a float. -/
def truncQ (q : ℚ) : ℤ := if q < 0 then ⌈q⌉ else ⌊q⌋

/-! ### Indicator engine (src/analysis/technical_indicators.py) -/

/-- Trailing window of length `p` ending at index `i` (inclusive), as used by
`pandas.Series.rolling(window=p)`. -/
def windowAt (p i : ℕ) (xs : List ℚ) : List ℚ := (xs.take (i+1)).drop (i+1-p)

/-- Value of `rolling(window=p, min_periods=p).mean()` at index `i`:
defined once `p` observations are available. -/
def meanAt (p i : ℕ) (xs : List ℚ) : Option ℚ :=
  if p ≤ i + 1 then some ((windowAt p i xs).sum / (p : ℚ)) else none

/-- Series produced by `rolling(window=p, min_periods=p).mean()`
(`TechnicalAnalyzer.calculate_sma`). -/
def rollingMean (p : ℕ) (xs : List ℚ) : List (Option ℚ) :=
  (List.range xs.length).map (fun i => meanAt p i xs)

/-- Sample variance of the trailing `p`-window at index `i`, the square of
`rolling(window=p).std()` (pandas default `ddof = 1`, divisor `p-1`). -/
def varAt (p i : ℕ) (xs : List ℚ) : Option ℚ :=
  if p ≤ i + 1 then
    some ((((windowAt p i xs).map
      (fun x => (x - (windowAt p i xs).sum / (p : ℚ))^2)).sum) / ((p - 1 : ℕ) : ℚ))
  else none

/-- Per-bar gains: `delta.where(delta > 0, 0)` applied to `prices.diff()`.
The index-0 `NaN` delta is turned into `0` by `where`. -/
def gainsOf : List ℚ → List ℚ
  | [] => []
  | x :: xs => 0 :: List.zipWith (fun a b => if 0 < b - a then b - a else 0) (x :: xs) xs

/-- Per-bar losses: `-delta.where(delta < 0, 0)` applied to `prices.diff()`. -/
def lossesOf : List ℚ → List ℚ
  | [] => []
  | x :: xs => 0 :: List.zipWith (fun a b => if b - a < 0 then -(b - a) else 0) (x :: xs) xs

/-- RSI value at index `i` (`TechnicalAnalyzer.calculate_rsi`).
`rs = avgGain / avgLoss`; in float semantics `0/0` is `NaN` (modelled
`none`) and `g/0` with `g > 0` is `+inf`, giving `100 - 100/(1+inf) = 100`. -/
def rsiAt (p : ℕ) (xs : List ℚ) (i : ℕ) : Option ℚ :=
  match meanAt p i (gainsOf xs), meanAt p i (lossesOf xs) with
  | some g, some l =>
      if l = 0 then (if 0 < g then some 100 else none)
      else some (100 - 100 / (1 + g / l))
  | _, _ => none

/-- RSI series aligned with the input series. -/
def rsiList (p : ℕ) (xs : List ℚ) : List (Option ℚ) :=
  (List.range xs.length).map (rsiAt p xs)

/-- Recursive EMA tail: `EMA_t = a*x_t + (1-a)*EMA_(t-1)`. -/
def emaFrom (a : ℚ) (prev : ℚ) : List ℚ → List ℚ
  | [] => []
  | x :: xs => (a * x + (1 - a) * prev) :: emaFrom a (a * x + (1 - a) * prev) xs

/-- EMA series, `ewm(span=p, adjust=False).mean()`: seeded by the first price,
smoothing factor `2/(p+1)`, defined from index 0 on
(`TechnicalAnalyzer.calculate_ema`). -/
def emaList (p : ℕ) : List ℚ → List ℚ
  | [] => []
  | x :: xs => x :: emaFrom ((2 : ℚ) / ((p : ℚ) + 1)) x xs

/-- MACD line: `ema(12) - ema(26)` (`TechnicalAnalyzer.calculate_macd`). -/
def macdLineOf (xs : List ℚ) : List ℚ :=
  List.zipWith (fun a b => a - b) (emaList 12 xs) (emaList 26 xs)

/-- MACD signal line: `ewm(span=9, adjust=False)` of the MACD line. -/
def macdSignalOf (xs : List ℚ) : List ℚ := emaList 9 (macdLineOf xs)

/-- MACD histogram: MACD line minus signal line. -/
def macdHistOf (xs : List ℚ) : List ℚ :=
  List.zipWith (fun a b => a - b) (macdLineOf xs) (macdSignalOf xs)

/-- Latest indicator values assembled by `TechnicalAnalyzer.analyze_stock`
(`float(series.iloc[-1]) if not pd.isna(...) else None`). -/
structure Snapshot where
  currentPrice : ℚ
  rsi : Option ℚ
  smaShort : Option ℚ
  smaLong : Option ℚ
  emaShortV : Option ℚ
  emaLongV : Option ℚ
  bbUpper : Option ℚ
  bbMiddle : Option ℚ
  bbLower : Option ℚ
  macd : Option ℚ
  macdSig : Option ℚ
  macdHist : Option ℚ
deriving DecidableEq

/-- Snapshot of the last bar of a price series, per `analyze_stock` with the
default configuration (RSI 14, SMA 20/50, EMA 12/26, Bollinger 20 with k=2,
MACD 12/26/9).  `sq` models the square root used for the Bollinger standard
deviation.  `analyze_stock` rejects an empty frame before reaching this
computation, so `prices` is nonempty at every call site. -/
def analyzeSnapshot (sq : ℚ → ℚ) (prices : List ℚ) : Snapshot :=
  { currentPrice := prices.getLastD 0
    rsi := rsiAt 14 prices (prices.length - 1)
    smaShort := meanAt 20 (prices.length - 1) prices
    smaLong := meanAt 50 (prices.length - 1) prices
    emaShortV := (emaList 12 prices).getLast?
    emaLongV := (emaList 26 prices).getLast?
    bbUpper :=
      match meanAt 20 (prices.length - 1) prices, varAt 20 (prices.length - 1) prices with
      | some m, some v => some (m + sq v * 2)
      | _, _ => none
    bbMiddle := meanAt 20 (prices.length - 1) prices
    bbLower :=
      match meanAt 20 (prices.length - 1) prices, varAt 20 (prices.length - 1) prices with
      | some m, some v => some (m - sq v * 2)
      | _, _ => none
    macd := (macdLineOf prices).getLast?
    macdSig := (macdSignalOf prices).getLast?
    macdHist := (macdHistOf prices).getLast? }

/-! ### Signal generator (`TechnicalAnalyzer._generate_signals`) -/

/-- Per-indicator sub-signal labels. -/
inductive SubSig
  | neutral
  | buy
  | sell
  | bullish
  | bearish
deriving DecidableEq

/-- Overall signal classification. -/
inductive SigLabel
  | strongSell
  | sell
  | hold
  | buy
  | strongBuy
deriving DecidableEq

/-- Reasons appended by the signal rules (the source stores formatted strings;
the constructor identifies which rule's string is appended). -/
inductive Reason
  | rsiOversold
  | rsiOverbought
  | goldenCross
  | deathCross
  | macdBullish
  | macdBearish
  | atLowerBand
  | atUpperBand
deriving DecidableEq

/-- RSI rule block: guarded by `indicators['rsi'] is not None`. -/
def rsiRule (oversold overbought : ℚ) (ind : Snapshot) : SubSig × ℚ × List Reason :=
  match ind.rsi with
  | some r =>
      if r < oversold then (SubSig.buy, (3 : ℚ)/10, [Reason.rsiOversold])
      else if overbought < r then (SubSig.sell, -((3 : ℚ)/10), [Reason.rsiOverbought])
      else (SubSig.neutral, 0, [])
  | none => (SubSig.neutral, 0, [])

/-- Moving-average rule block: guarded by Python truthiness
`if indicators['sma_short'] and indicators['sma_long']`, which is false when
either value is `None` or exactly `0.0`. -/
def maRule (ind : Snapshot) : SubSig × ℚ × List Reason :=
  match ind.smaShort, ind.smaLong with
  | some a, some b =>
      if a ≠ 0 ∧ b ≠ 0 then
        if b < a then (SubSig.bullish, (1 : ℚ)/4, [Reason.goldenCross])
        else if a < b then (SubSig.bearish, -((1 : ℚ)/4), [Reason.deathCross])
        else (SubSig.neutral, 0, [])
      else (SubSig.neutral, 0, [])
  | _, _ => (SubSig.neutral, 0, [])

/-- Positivity of an optional value; the `none` branch of the histogram
comparison is unreachable in the pipeline (the histogram is defined whenever
the MACD and signal lines are) and is modelled as a non-firing condition. -/
def optPos (o : Option ℚ) : Bool :=
  match o with
  | some h => decide (0 < h)
  | none => false

/-- Negativity of an optional value, `none` treated as non-firing. -/
def optNeg (o : Option ℚ) : Bool :=
  match o with
  | some h => decide (h < 0)
  | none => false

/-- MACD rule block: guarded by truthiness of `macd` and `macd_signal`.  The
histogram is compared without a `None` guard in the source; see `optPos`. -/
def macdRule (ind : Snapshot) : SubSig × ℚ × List Reason :=
  match ind.macd, ind.macdSig with
  | some m, some s =>
      if m ≠ 0 ∧ s ≠ 0 then
        if s < m ∧ optPos ind.macdHist = true then
          (SubSig.buy, (1 : ℚ)/4, [Reason.macdBullish])
        else if m < s ∧ optNeg ind.macdHist = true then
          (SubSig.sell, -((1 : ℚ)/4), [Reason.macdBearish])
        else (SubSig.neutral, 0, [])
      else (SubSig.neutral, 0, [])
  | _, _ => (SubSig.neutral, 0, [])

/-- Bollinger rule block: guarded by
`all([current_price, bb_upper, bb_lower])` (truthiness of each). -/
def bbRule (ind : Snapshot) : SubSig × ℚ × List Reason :=
  match ind.bbUpper, ind.bbLower with
  | some u, some l =>
      if ind.currentPrice ≠ 0 ∧ u ≠ 0 ∧ l ≠ 0 then
        if ind.currentPrice ≤ l then (SubSig.buy, (1 : ℚ)/5, [Reason.atLowerBand])
        else if u ≤ ind.currentPrice then (SubSig.sell, -((1 : ℚ)/5), [Reason.atUpperBand])
        else (SubSig.neutral, 0, [])
      else (SubSig.neutral, 0, [])
  | _, _ => (SubSig.neutral, 0, [])

/-- Result of `_generate_signals`. -/
structure Signals where
  rsiSignal : SubSig
  maSignal : SubSig
  macdSignal2 : SubSig
  bbSignal : SubSig
  overall : SigLabel
  strength : ℚ
  reasons : List Reason
deriving DecidableEq

/-- Composite signal (`TechnicalAnalyzer._generate_signals`): the four rule
blocks run in order, each adding its strength term and appending its reason;
the summed strength is then classified. -/
def generateSignals (oversold overbought : ℚ) (ind : Snapshot) : Signals :=
  let r1 := rsiRule oversold overbought ind
  let r2 := maRule ind
  let r3 := macdRule ind
  let r4 := bbRule ind
  let strength := r1.2.1 + r2.2.1 + r3.2.1 + r4.2.1
  { rsiSignal := r1.1
    maSignal := r2.1
    macdSignal2 := r3.1
    bbSignal := r4.1
    overall :=
      if (2 : ℚ)/5 ≤ strength then SigLabel.strongBuy
      else if (1 : ℚ)/5 ≤ strength then SigLabel.buy
      else if strength ≤ -((2 : ℚ)/5) then SigLabel.strongSell
      else if strength ≤ -((1 : ℚ)/5) then SigLabel.sell
      else SigLabel.hold
    strength := strength
    reasons := r1.2.2 ++ r2.2.2 ++ r3.2.2 ++ r4.2.2 }

/-! ### Backtester (src/backtesting/backtester.py) -/

/-- Trade type of a record appended to the trade list. -/
inductive TradeType
  | buy
  | sell
deriving DecidableEq

/-- Exit reason recorded on a SELL trade; `sellSignal` carries the overall
label interpolated into the source's reason string. -/
inductive ExitReason
  | sellSignal (s : SigLabel)
  | stopLoss
  | takeProfit
  | endOfBacktest
deriving DecidableEq

/-- Trade record (the source uses a dict; keys absent for a given trade type
are modelled as `none`: BUY trades carry no P/L or reason, and the
end-of-backtest SELL carries no signal or strength). -/
structure Trade where
  barIndex : ℕ
  type : TradeType
  price : ℚ
  shares : ℤ
  signal : Option SigLabel
  strength : Option ℚ
  pnlPct : Option ℚ
  reason : Option ExitReason
deriving DecidableEq

/-- Mutable loop state of `Backtester.run_backtest`. -/
structure BTState where
  capital : ℚ
  position : ℤ
  entryPrice : ℚ
  trades : List Trade
  equity : List ℚ
deriving DecidableEq

/-- State before the loop: `capital = initial_capital`, no position, and the
equity curve already seeded with one point (`equity_curve = [capital]`). -/
def initState (cap : ℚ) : BTState :=
  { capital := cap, position := 0, entryPrice := 0, trades := [], equity := [cap] }

/-- Mark-to-market portfolio value:
`capital + (position * price if position > 0 else 0)`. -/
def mark (st : BTState) (price : ℚ) : ℚ :=
  st.capital + (if 0 < st.position then (st.position : ℚ) * price else 0)

/-- Exit of a long position: proceeds added to capital, SELL trade recorded
with realized P/L percentage and reason, position cleared. -/
def exitAt (i : ℕ) (price : ℚ) (st : BTState) (S : Signals) (r : ExitReason)
    (pnl : ℚ) : BTState :=
  { st with
    capital := st.capital + (st.position : ℚ) * price,
    trades := st.trades ++
      [⟨i, TradeType.sell, price, st.position, some S.overall, some S.strength,
        some (pnl * 100), some r⟩],
    position := 0,
    entryPrice := 0 }

/-- Trading decision of bar `i` (everything the loop body does except the
equity append): warm-up skip for `i < 50`, entry on buy/strong_buy with
strength ≥ 0.3, and the three prioritized exit conditions.  The source's
`if 'error' in analysis: continue` branch is unreachable here because the
expanding window `data[:i+1]` is nonempty with a close column. -/
def tradeStep (sq : ℚ → ℚ) (pct : ℚ) (data : List ℚ) (st : BTState) (i : ℕ) : BTState :=
  if i < 50 then st
  else
    let price := data.getD i 0
    let S := generateSignals 30 70 (analyzeSnapshot sq (data.take (i+1)))
    if st.position = 0 ∧ (S.overall = SigLabel.buy ∨ S.overall = SigLabel.strongBuy) ∧
        (3 : ℚ)/10 ≤ S.strength then
      let shares := truncQ (st.capital * pct / price)
      if 0 < shares then
        { st with
          position := shares,
          entryPrice := price,
          capital := st.capital - (shares : ℚ) * price,
          trades := st.trades ++
            [⟨i, TradeType.buy, price, shares, some S.overall, some S.strength, none, none⟩] }
      else st
    else if 0 < st.position then
      let pnl := (price - st.entryPrice) / st.entryPrice
      if (S.overall = SigLabel.sell ∨ S.overall = SigLabel.strongSell) ∧
          S.strength ≤ -((3 : ℚ)/10) then
        exitAt i price st S (ExitReason.sellSignal S.overall) pnl
      else if pnl ≤ -((1 : ℚ)/20) then
        exitAt i price st S ExitReason.stopLoss pnl
      else if (1 : ℚ)/10 ≤ pnl then
        exitAt i price st S ExitReason.takeProfit pnl
      else st
    else st

/-- Full loop body for bar `i`: the trading decision followed by appending the
current mark-to-market equity.  During warm-up this appends
`capital + (position * close if position > 0 else 0)` exactly as the source
does. -/
def btStep (sq : ℚ → ℚ) (pct : ℚ) (data : List ℚ) (st : BTState) (i : ℕ) : BTState :=
  let st2 := tradeStep sq pct data st i
  { st2 with equity := st.equity ++ [mark st2 (data.getD i 0)] }

/-- State after the first `k` bars of the loop. -/
def statesUpTo (sq : ℚ → ℚ) (cap pct : ℚ) (data : List ℚ) (k : ℕ) : BTState :=
  (List.range k).foldl (btStep sq pct data) (initState cap)

/-- State at the end of the loop over all bars. -/
def runStates (sq : ℚ → ℚ) (cap pct : ℚ) (data : List ℚ) : BTState :=
  statesUpTo sq cap pct data data.length

/-- Running maximum tail with accumulator `m`. -/
def cummaxFrom (m : ℚ) : List ℚ → List ℚ
  | [] => []
  | x :: xs => max m x :: cummaxFrom (max m x) xs

/-- Running maximum of a list (`pd.Series.cummax()`). -/
def cummaxOf : List ℚ → List ℚ
  | [] => []
  | x :: xs => x :: cummaxFrom x xs

/-- Drawdown series `(equity - cummax) / cummax * 100`. -/
def drawdownsOf (eq : List ℚ) : List ℚ :=
  List.zipWith (fun e m => (e - m) / m * 100) eq (cummaxOf eq)

/-- Minimum of a list (`pd.Series.min()`), 0 for the empty list (the equity
curve is never empty, so the default is never used). -/
def minListD : List ℚ → ℚ
  | [] => 0
  | x :: xs => xs.foldl min x

/-- Maximum drawdown of an equity curve. -/
def maxDrawdownOf (eq : List ℚ) : ℚ := minListD (drawdownsOf eq)

/-- Result dictionary of `run_backtest` (the constant `symbol` string is
omitted). -/
structure BTResult where
  initialCapital : ℚ
  finalCapital : ℚ
  totalReturnPct : ℚ
  buyHoldReturnPct : ℚ
  outperformance : ℚ
  totalTrades : ℕ
  winningTrades : ℕ
  losingTrades : ℕ
  winRatePct : ℚ
  maxDrawdownPct : ℚ
  trades : List Trade
  equity : List ℚ
deriving DecidableEq

/-- Full backtest (`Backtester.run_backtest`): the bar loop, forced
liquidation of a still-open position at the final close, and the summary
statistics. -/
def runBacktest (sq : ℚ → ℚ) (initialCapital pct : ℚ) (data : List ℚ) : BTResult :=
  let st := runStates sq initialCapital pct data
  let finalPrice := data.getLastD 0
  let st2 :=
    if 0 < st.position then
      { st with
        capital := st.capital + (st.position : ℚ) * finalPrice,
        trades := st.trades ++
          [⟨data.length - 1, TradeType.sell, finalPrice, st.position, none, none,
            some ((finalPrice - st.entryPrice) / st.entryPrice * 100),
            some ExitReason.endOfBacktest⟩],
        position := 0,
        entryPrice := 0 }
    else st
  let wins := (st2.trades.filter (fun t => 0 < t.pnlPct.getD 0)).length
  let losses := (st2.trades.filter (fun t => t.pnlPct.getD 0 < 0)).length
  { initialCapital := initialCapital
    finalCapital := st2.capital
    totalReturnPct := (st2.capital - initialCapital) / initialCapital * 100
    buyHoldReturnPct := (data.getLastD 0 - data.headD 0) / data.headD 0 * 100
    outperformance := (st2.capital - initialCapital) / initialCapital * 100 -
      (data.getLastD 0 - data.headD 0) / data.headD 0 * 100
    totalTrades := st2.trades.length
    winningTrades := wins
    losingTrades := losses
    winRatePct := if 0 < wins + losses then ((wins : ℚ) / ((wins : ℚ) + (losses : ℚ))) * 100 else 0
    maxDrawdownPct := maxDrawdownOf st2.equity
    trades := st2.trades
    equity := st2.equity }

/-! ### Risk manager (src/risk/risk_manager.py) -/

/-- Reason field of a position-sizing result (the source stores strings). -/
inductive SizeReason
  | maxPositionsReached
  | dailyLossLimit
  | insufficientCapital
  | costExceedsPortfolio
  | positionApproved
deriving DecidableEq

/-- Result dictionary of `RiskManager.calculate_position_size`. -/
structure SizeResult where
  approved : Bool
  shares : ℤ
  cost : ℚ
  reason : SizeReason
deriving DecidableEq

/-- Position sizing (`RiskManager.calculate_position_size`): reject on max
positions, then on the daily-loss limit (only checked when the day's starting
portfolio value is positive), then compute `shares = int(pv * maxSize / price)`
and reject on zero shares or cost exceeding the portfolio value. -/
def calculatePositionSize (maxPositions : ℕ) (maxPositionSize maxDailyLoss : ℚ)
    (dailyPnl startingPortfolioValue : ℚ) (price portfolioValue : ℚ)
    (currentPositions : ℕ) : SizeResult :=
  if maxPositions ≤ currentPositions then
    ⟨false, 0, 0, SizeReason.maxPositionsReached⟩
  else if 0 < startingPortfolioValue ∧
      dailyPnl / startingPortfolioValue ≤ -maxDailyLoss then
    ⟨false, 0, 0, SizeReason.dailyLossLimit⟩
  else
    let shares := truncQ (portfolioValue * maxPositionSize / price)
    if shares = 0 then ⟨false, 0, 0, SizeReason.insufficientCapital⟩
    else if portfolioValue < (shares : ℚ) * price then
      ⟨false, 0, 0, SizeReason.costExceedsPortfolio⟩
    else ⟨true, shares, (shares : ℚ) * price, SizeReason.positionApproved⟩

/-- Stop-loss price for a long entry (`RiskManager.calculate_stop_loss`). -/
def calculateStopLoss (stopLossPct entryPrice : ℚ) : ℚ :=
  entryPrice * (1 - stopLossPct)

/-- Take-profit price for a long entry
(`RiskManager.calculate_take_profit`): entry plus `entry * stopLossPct * rr`. -/
def calculateTakeProfit (stopLossPct entryPrice rr : ℚ) : ℚ :=
  entryPrice + entryPrice * stopLossPct * rr

/-! ### Portfolio manager (src/portfolio/portfolio_manager.py) -/

/-- Result of `PortfolioManager.calculate_risk_reward_ratio`: whether the
computation succeeded, the unadjusted ratio, and the strength-adjusted ratio
(the error paths of the source return ratio 0 with an error marker). -/
structure RRResult where
  ok : Bool
  rrValue : ℚ
  rrAdjusted : ℚ
deriving DecidableEq

/-- Risk/reward computation per candidate
(`PortfolioManager.calculate_risk_reward_ratio`): size the position (with
`current_positions = 0`, the source's default), bail out on rejection or zero
cost, then `ratio = (takeProfit - price) / (price - stopLoss)` with the
default risk-reward ratio 2.0, and scale by `max(0, signal_strength)`. -/
def calculateRiskReward (maxPositions : ℕ)
    (maxPositionSize maxDailyLoss stopLossPct : ℚ)
    (dailyPnl startingPortfolioValue : ℚ)
    (price portfolioValue strength : ℚ) : RRResult :=
  let pr := calculatePositionSize maxPositions maxPositionSize maxDailyLoss
    dailyPnl startingPortfolioValue price portfolioValue 0
  if pr.approved = false then ⟨false, 0, 0⟩
  else if pr.cost = 0 then ⟨false, 0, 0⟩
  else
    let sl := calculateStopLoss stopLossPct price
    let tp := calculateTakeProfit stopLossPct price 2
    let risk := price - sl
    let reward := tp - price
    if risk ≤ 0 then ⟨false, 0, 0⟩
    else ⟨true, reward / risk, reward / risk * max 0 strength⟩

/-! ### Helper lemmas -/

theorem forall_mem_zipWith {α β γ : Type} {f : α → β → γ} {P : γ → Prop}
    (h : ∀ a b, P (f a b)) :
    ∀ (l1 : List α) (l2 : List β), ∀ y ∈ List.zipWith f l1 l2, P y := by
  intro l1
  induction l1 with
  | nil => simp
  | cons a l1 ih =>
    intro l2 y hy
    cases l2 with
    | nil => simp at hy
    | cons b l2 =>
      simp only [List.zipWith_cons_cons, List.mem_cons] at hy
      rcases hy with h1 | h1
      · exact h1 ▸ h a b
      · exact ih l2 y h1

theorem gainsOf_nonneg (xs : List ℚ) : ∀ y ∈ gainsOf xs, 0 ≤ y := by
  cases xs with
  | nil => simp [gainsOf]
  | cons x rest =>
    intro y hy
    simp only [gainsOf, List.mem_cons] at hy
    rcases hy with h | h
    · simp [h]
    · refine forall_mem_zipWith (fun a b => ?_) _ _ y h
      split
      · linarith
      · exact le_refl 0

theorem lossesOf_nonneg (xs : List ℚ) : ∀ y ∈ lossesOf xs, 0 ≤ y := by
  cases xs with
  | nil => simp [lossesOf]
  | cons x rest =>
    intro y hy
    simp only [lossesOf, List.mem_cons] at hy
    rcases hy with h | h
    · simp [h]
    · refine forall_mem_zipWith (fun a b => ?_) _ _ y h
      split
      · linarith
      · exact le_refl 0

theorem windowAt_subset (p i : ℕ) (xs : List ℚ) :
    ∀ y ∈ windowAt p i xs, y ∈ xs := by
  intro y hy
  exact List.mem_of_mem_take (List.mem_of_mem_drop hy)

theorem meanAt_nonneg {p i : ℕ} {ys : List ℚ} {v : ℚ}
    (hnn : ∀ y ∈ ys, 0 ≤ y) (hv : meanAt p i ys = some v) : 0 ≤ v := by
  unfold meanAt at hv
  split at hv
  · have hsum : 0 ≤ (windowAt p i ys).sum :=
      List.sum_nonneg (fun y hy => hnn y (windowAt_subset p i ys y hy))
    have := Option.some.inj hv
    subst this
    exact div_nonneg hsum (Nat.cast_nonneg p)
  · exact absurd hv (by simp)

/-! ### Claim C5 -/

/-- C5: at any bar where the rolling average loss is 0 and the rolling
average gain is strictly positive, RSI equals 100; at any bar where both the
rolling average gain and the rolling average loss are 0, RSI is undefined
(propagated as `none`, never a numeric default). -/
theorem C5_rsi_zero_loss (p : ℕ) (xs : List ℚ) (i : ℕ) (g l : ℚ)
    (hg : meanAt p i (gainsOf xs) = some g)
    (hl : meanAt p i (lossesOf xs) = some l) :
    (l = 0 ∧ 0 < g → rsiAt p xs i = some 100) ∧
    (g = 0 ∧ l = 0 → rsiAt p xs i = none) := by
  unfold rsiAt
  rw [hg, hl]
  constructor
  · rintro ⟨h0, hpos⟩
    simp [h0, hpos]
  · rintro ⟨h0, h1⟩
    simp [h0, h1]

/-- Witness for C5: on the rising series `[0, 1, 2]` with period 2 the average
loss is 0 and the average gain is 1, so RSI is 100; on the flat series
`[5, 5, 5]` both averages are 0 and RSI is undefined. -/
theorem C5_rsi_zero_loss_witness :
    meanAt 2 2 (gainsOf [(0 : ℚ), 1, 2]) = some 1 ∧
    meanAt 2 2 (lossesOf [(0 : ℚ), 1, 2]) = some 0 ∧
    rsiAt 2 [(0 : ℚ), 1, 2] 2 = some 100 ∧
    rsiAt 2 [(5 : ℚ), 5, 5] 2 = none := by
  have h1 : meanAt 2 2 (gainsOf [(0 : ℚ), 1, 2]) = some 1 := by
    norm_num [meanAt, windowAt, gainsOf]
  have h2 : meanAt 2 2 (lossesOf [(0 : ℚ), 1, 2]) = some 0 := by
    norm_num [meanAt, windowAt, lossesOf]
  have h3 : meanAt 2 2 (gainsOf [(5 : ℚ), 5, 5]) = some 0 := by
    norm_num [meanAt, windowAt, gainsOf]
  have h4 : meanAt 2 2 (lossesOf [(5 : ℚ), 5, 5]) = some 0 := by
    norm_num [meanAt, windowAt, lossesOf]
  exact ⟨h1, h2,
    (C5_rsi_zero_loss 2 [0, 1, 2] 2 1 0 h1 h2).1 ⟨rfl, one_pos⟩,
    (C5_rsi_zero_loss 2 [5, 5, 5] 2 0 0 h3 h4).2 ⟨rfl, rfl⟩⟩

/-! ### Claim C6 -/

/-- C6: every defined RSI value lies in the closed interval `[0, 100]`, for
every price series and every period. -/
theorem C6_rsi_bounds (p : ℕ) (xs : List ℚ) (x : ℚ)
    (hx : some x ∈ rsiList p xs) : 0 ≤ x ∧ x ≤ 100 := by
  obtain ⟨i, _, hi⟩ := List.mem_map.mp hx
  revert hi
  unfold rsiAt
  cases hg : meanAt p i (gainsOf xs) with
  | none => intro h; exact absurd h (by simp)
  | some g =>
    cases hl : meanAt p i (lossesOf xs) with
    | none => intro h; exact absurd h (by simp)
    | some l =>
      have hg0 : 0 ≤ g := meanAt_nonneg (gainsOf_nonneg xs) hg
      have hl0 : 0 ≤ l := meanAt_nonneg (lossesOf_nonneg xs) hl
      intro h
      simp only at h
      split at h
      · split at h
        · have := Option.some.inj h
          subst this
          norm_num
        · exact absurd h (by simp)
      · rename_i hlne
        have hlpos : 0 < l := lt_of_le_of_ne hl0 (Ne.symm hlne)
        have hr : 0 ≤ g / l := div_nonneg hg0 (le_of_lt hlpos)
        have hle : (100 : ℚ) / (1 + g / l) ≤ 100 := by
          apply div_le_self (by norm_num)
          linarith
        have hpos : (0 : ℚ) < 100 / (1 + g / l) := by
          apply div_pos (by norm_num)
          linarith
        have := Option.some.inj h
        subst this
        constructor <;> linarith

/-- Witness for C6: RSI of `[0, 1, 2, 1]` with period 2 at index 3 is defined
(average gain 1/2, average loss 1/2, RSI 50) and lies in `[0, 100]`. -/
theorem C6_rsi_bounds_witness :
    some (50 : ℚ) ∈ rsiList 2 [(0 : ℚ), 1, 2, 1] ∧
    (0 : ℚ) ≤ 50 ∧ (50 : ℚ) ≤ 100 := by
  have hm : some (50 : ℚ) ∈ rsiList 2 [(0 : ℚ), 1, 2, 1] := by
    have : rsiAt 2 [(0 : ℚ), 1, 2, 1] 3 = some 50 := by
      norm_num [rsiAt, meanAt, windowAt, gainsOf, lossesOf]
    refine List.mem_map.mpr ⟨3, ?_, this⟩
    simp [List.mem_range]
  exact ⟨hm, (C6_rsi_bounds 2 [(0 : ℚ), 1, 2, 1] 50 hm).1,
    (C6_rsi_bounds 2 [(0 : ℚ), 1, 2, 1] 50 hm).2⟩

/-! ### Claim C8 -/

theorem truncQ_eq_floor {q : ℚ} (h : 0 ≤ q) : truncQ q = ⌊q⌋ := by
  unfold truncQ
  exact if_neg (not_lt.2 h)

/-- C8: position sizing rejects (zero shares, a non-approval reason, no
exception) exactly when the open position count is at the limit, or the daily
P/L relative to the day's starting portfolio value is at or below the loss
limit, or `floor(portfolioValue * maxPositionSizePct / price)` is 0, or that
share count costs more than the portfolio value; otherwise it approves with
that share count and `cost = shares * price`. -/
theorem C8_position_sizing (maxPositions : ℕ) (mps mdl pnl spv price pv : ℚ)
    (cnt : ℕ) (hprice : 0 < price) (hspv : 0 < spv) (hpv : 0 ≤ pv)
    (hmps : 0 ≤ mps) :
    ((calculatePositionSize maxPositions mps mdl pnl spv price pv cnt).approved = false ↔
      (maxPositions ≤ cnt ∨ pnl / spv ≤ -mdl ∨ ⌊pv * mps / price⌋ = 0 ∨
        pv < (⌊pv * mps / price⌋ : ℚ) * price)) ∧
    ((calculatePositionSize maxPositions mps mdl pnl spv price pv cnt).approved = false →
      (calculatePositionSize maxPositions mps mdl pnl spv price pv cnt).shares = 0 ∧
      (calculatePositionSize maxPositions mps mdl pnl spv price pv cnt).reason ≠
        SizeReason.positionApproved) ∧
    ((calculatePositionSize maxPositions mps mdl pnl spv price pv cnt).approved = true →
      (calculatePositionSize maxPositions mps mdl pnl spv price pv cnt).shares =
        ⌊pv * mps / price⌋ ∧
      (calculatePositionSize maxPositions mps mdl pnl spv price pv cnt).cost =
        (⌊pv * mps / price⌋ : ℚ) * price) := by
  have hval : 0 ≤ pv * mps / price :=
    div_nonneg (mul_nonneg hpv hmps) (le_of_lt hprice)
  have htr : truncQ (pv * mps / price) = ⌊pv * mps / price⌋ := truncQ_eq_floor hval
  simp only [calculatePositionSize]
  rw [htr]
  split_ifs with h1 h2 h3 h4
  · simp [h1]
  · refine ⟨?_, by simp, by simp⟩
    simp only [eq_self_iff_true, true_iff]
    exact Or.inr (Or.inl h2.2)
  · simp [h3]
  · simp [h4]
  · have hdl : ¬ pnl / spv ≤ -mdl := fun hc => h2 ⟨hspv, hc⟩
    simp [h1, h3, h4, hdl]

/-- Witness for C8: with 5 max positions, 10% position size, price 10 and a
1000 portfolio, the hypotheses hold and the characterization applies. -/
theorem C8_position_sizing_witness :
    (0 : ℚ) < 10 ∧ (0 : ℚ) < 1000 ∧ (0 : ℚ) ≤ 1000 ∧ (0 : ℚ) ≤ 1/10 ∧
    (((calculatePositionSize 5 (1/10) (1/50) 0 1000 10 1000 0).approved = false ↔
      (5 ≤ 0 ∨ (0 : ℚ) / 1000 ≤ -(1/50) ∨ ⌊(1000 : ℚ) * (1/10) / 10⌋ = 0 ∨
        (1000 : ℚ) < (⌊(1000 : ℚ) * (1/10) / 10⌋ : ℚ) * 10)) ∧
    ((calculatePositionSize 5 (1/10) (1/50) 0 1000 10 1000 0).approved = false →
      (calculatePositionSize 5 (1/10) (1/50) 0 1000 10 1000 0).shares = 0 ∧
      (calculatePositionSize 5 (1/10) (1/50) 0 1000 10 1000 0).reason ≠
        SizeReason.positionApproved) ∧
    ((calculatePositionSize 5 (1/10) (1/50) 0 1000 10 1000 0).approved = true →
      (calculatePositionSize 5 (1/10) (1/50) 0 1000 10 1000 0).shares =
        ⌊(1000 : ℚ) * (1/10) / 10⌋ ∧
      (calculatePositionSize 5 (1/10) (1/50) 0 1000 10 1000 0).cost =
        (⌊(1000 : ℚ) * (1/10) / 10⌋ : ℚ) * 10)) :=
  ⟨by norm_num, by norm_num, by norm_num, by norm_num,
    C8_position_sizing 5 (1/10) (1/50) 0 1000 10 1000 0
      (by norm_num) (by norm_num) (by norm_num) (by norm_num)⟩

/-! ### Claim C10 -/

theorem calculatePositionSize_of_approved (maxPositions : ℕ)
    (mps mdl pnl spv price pv : ℚ) (cnt : ℕ)
    (h : (calculatePositionSize maxPositions mps mdl pnl spv price pv cnt).approved = true) :
    calculatePositionSize maxPositions mps mdl pnl spv price pv cnt =
      ⟨true, truncQ (pv * mps / price), (truncQ (pv * mps / price) : ℚ) * price,
        SizeReason.positionApproved⟩ ∧
    truncQ (pv * mps / price) ≠ 0 := by
  simp only [calculatePositionSize] at h ⊢
  split_ifs at h ⊢ with h1 h2 h3 h4
  all_goals simp_all

/-- C10: the stop-loss and take-profit formulas satisfy
`(takeProfit(p, r) - p) / (p - stopLoss(p)) = r` exactly, for every entry
price `p > 0`, stop-loss percentage `s > 0` and ratio `r`; consequently the
allocator's per-candidate unadjusted risk/reward ratio is exactly 2 (the
default configured ratio) regardless of price, and the adjusted ratio is
`2 * max 0 strength`. -/
theorem C10_risk_reward_exact (p s r strength : ℚ) (hp : 0 < p) (hs : 0 < s) :
    (calculateTakeProfit s p r - p) / (p - calculateStopLoss s p) = r ∧
    (∀ (maxPositions : ℕ) (mps mdl pnl spv pv : ℚ),
      0 ≤ pv → 0 ≤ mps →
      (calculatePositionSize maxPositions mps mdl pnl spv p pv 0).approved = true →
      calculateRiskReward maxPositions mps mdl s pnl spv p pv strength =
        ⟨true, 2, 2 * max 0 strength⟩) := by
  have hps : p * s ≠ 0 := ne_of_gt (mul_pos hp hs)
  constructor
  · unfold calculateTakeProfit calculateStopLoss
    rw [show p + p * s * r - p = p * s * r from by ring,
      show p - p * (1 - s) = p * s from by ring]
    exact mul_div_cancel_left₀ r hps
  · intro maxPositions mps mdl pnl spv pv hpv hmps happ
    obtain ⟨heq, hsh⟩ :=
      calculatePositionSize_of_approved maxPositions mps mdl pnl spv p pv 0 happ
    have hval : 0 ≤ pv * mps / p := div_nonneg (mul_nonneg hpv hmps) (le_of_lt hp)
    have hsh0 : 0 ≤ truncQ (pv * mps / p) := by
      rw [truncQ_eq_floor hval]
      exact Int.floor_nonneg.mpr hval
    have hsh1 : (1 : ℤ) ≤ truncQ (pv * mps / p) := by
      rcases lt_or_eq_of_le hsh0 with h | h
      · exact h
      · exact absurd h.symm hsh
    have hcost : (0 : ℚ) < (truncQ (pv * mps / p) : ℚ) * p := by
      apply mul_pos _ hp
      exact_mod_cast lt_of_lt_of_le one_pos hsh1
    unfold calculateRiskReward
    rw [heq]
    simp only [Bool.true_eq_false, if_false]
    rw [if_neg (ne_of_gt hcost)]
    have hrisk : p - calculateStopLoss s p = p * s := by
      unfold calculateStopLoss
      ring
    rw [hrisk, if_neg (not_le.2 (mul_pos hp hs))]
    have hreward : calculateTakeProfit s p 2 - p = p * s * 2 := by
      unfold calculateTakeProfit
      ring
    rw [hreward]
    have h2 : p * s * 2 / (p * s) = 2 := by
      field_simp
    rw [h2]

/-- Witness for C10: entry price 10, stop-loss 5%, ratio 3, strength 1/2, with
an approved sizing at portfolio value 1000 and 10% position size. -/
theorem C10_risk_reward_exact_witness :
    (0 : ℚ) < 10 ∧ (0 : ℚ) < 1/20 ∧
    (calculateTakeProfit (1/20) 10 3 - 10) / (10 - calculateStopLoss (1/20) 10) = 3 ∧
    calculateRiskReward 5 (1/10) (1/50) (1/20) 0 1000 10 1000 (1/2) =
      ⟨true, 2, 2 * max 0 (1/2)⟩ := by
  have h := C10_risk_reward_exact 10 (1/20) 3 (1/2) (by norm_num) (by norm_num)
  have happ : (calculatePositionSize 5 (1/10) (1/50) 0 1000 10 1000 0).approved = true := by
    norm_num [calculatePositionSize, truncQ]
  exact ⟨by norm_num, by norm_num, h.1,
    h.2 5 (1/10) (1/50) 0 1000 1000 (by norm_num) (by norm_num) happ⟩

/-! ### Claim C9 -/

/-- C9: the backtest is deterministic — two runs on the same price series with
the same configuration (initial capital, position size percentage, and the
same square-root model) produce the same trade list, equity curve, and
summary statistics.  The embedding is a pure function of its inputs; the
source reads no randomness, clock, or ambient state inside `run_backtest`. -/
theorem C9_deterministic (sq1 sq2 : ℚ → ℚ) (cap1 cap2 pct1 pct2 : ℚ)
    (d1 d2 : List ℚ) (hsq : sq1 = sq2) (hcap : cap1 = cap2) (hpct : pct1 = pct2)
    (hd : d1 = d2) :
    runBacktest sq1 cap1 pct1 d1 = runBacktest sq2 cap2 pct2 d2 := by
  rw [hsq, hcap, hpct, hd]

/-- Witness for C9 at a concrete input. -/
theorem C9_deterministic_witness :
    runBacktest id 100000 (1/10) [(100 : ℚ), 101] =
      runBacktest id 100000 (1/10) [(100 : ℚ), 101] :=
  C9_deterministic id id 100000 100000 (1/10) (1/10) [(100 : ℚ), 101]
    [(100 : ℚ), 101] rfl rfl rfl rfl

/-! ### Claim C2 -/

/-- C2: in the LONG state at a decision bar the three exit conditions are
evaluated in priority order — (a) sell/strong_sell signal with strength
≤ −0.3, (b) return vs entry ≤ −0.05 (the default stopLossPct), (c) return vs
entry ≥ 0.10 (takeProfitMultiple 2 × stopLossPct 0.05, both hard-coded in the
source) — the first match fixes the recorded exit reason; on exit the
proceeds `shares × price` are added to capital, a SELL trade with realized
P/L % is recorded, and the position is cleared. -/
theorem C2_long_exit_priority (sq : ℚ → ℚ) (pct : ℚ) (data : List ℚ)
    (st : BTState) (i : ℕ) (hpos : 0 < st.position) (hi : 50 ≤ i)
    (S : Signals) (hS : S = generateSignals 30 70 (analyzeSnapshot sq (data.take (i+1))))
    (price : ℚ) (hprice : price = data.getD i 0)
    (pnl : ℚ) (hpnl : pnl = (price - st.entryPrice) / st.entryPrice) :
    ((S.overall = SigLabel.sell ∨ S.overall = SigLabel.strongSell) ∧ S.strength ≤ -((3 : ℚ)/10) →
      tradeStep sq pct data st i = exitAt i price st S (ExitReason.sellSignal S.overall) pnl) ∧
    (¬ ((S.overall = SigLabel.sell ∨ S.overall = SigLabel.strongSell) ∧ S.strength ≤ -((3 : ℚ)/10)) →
      pnl ≤ -((1 : ℚ)/20) →
      tradeStep sq pct data st i = exitAt i price st S ExitReason.stopLoss pnl) ∧
    (¬ ((S.overall = SigLabel.sell ∨ S.overall = SigLabel.strongSell) ∧ S.strength ≤ -((3 : ℚ)/10)) →
      ¬ pnl ≤ -((1 : ℚ)/20) → (1 : ℚ)/10 ≤ pnl →
      tradeStep sq pct data st i = exitAt i price st S ExitReason.takeProfit pnl) ∧
    (¬ ((S.overall = SigLabel.sell ∨ S.overall = SigLabel.strongSell) ∧ S.strength ≤ -((3 : ℚ)/10)) →
      ¬ pnl ≤ -((1 : ℚ)/20) → ¬ (1 : ℚ)/10 ≤ pnl →
      tradeStep sq pct data st i = st) ∧
    (∀ r : ExitReason,
      (exitAt i price st S r pnl).capital = st.capital + (st.position : ℚ) * price ∧
      (exitAt i price st S r pnl).position = 0 ∧
      (exitAt i price st S r pnl).trades = st.trades ++
        [⟨i, TradeType.sell, price, st.position, some S.overall, some S.strength,
          some (pnl * 100), some r⟩]) := by
  subst hS hprice hpnl
  have h50 : ¬ i < 50 := not_lt.2 hi
  have hne : ¬ (st.position = 0 ∧
      ((generateSignals 30 70 (analyzeSnapshot sq (data.take (i+1)))).overall = SigLabel.buy ∨
        (generateSignals 30 70 (analyzeSnapshot sq (data.take (i+1)))).overall = SigLabel.strongBuy) ∧
      (3 : ℚ)/10 ≤ (generateSignals 30 70 (analyzeSnapshot sq (data.take (i+1)))).strength) :=
    fun hc => ne_of_gt hpos hc.1
  refine ⟨fun hc => ?_, fun hc1 hc2 => ?_, fun hc1 hc2 hc3 => ?_, fun hc1 hc2 hc3 => ?_,
    fun r => ⟨rfl, rfl, rfl⟩⟩
  · simp only [tradeStep, if_neg h50, if_neg hne, if_pos hpos, if_pos hc]
  · simp only [tradeStep, if_neg h50, if_neg hne, if_pos hpos, if_neg hc1, if_pos hc2]
  · simp only [tradeStep, if_neg h50, if_neg hne, if_pos hpos, if_neg hc1, if_neg hc2, if_pos hc3]
  · simp only [tradeStep, if_neg h50, if_neg hne, if_pos hpos, if_neg hc1, if_neg hc2, if_neg hc3]

/-! ### Constant-series lemmas -/

theorem replicate_getLast? (c : ℚ) (m : ℕ) (h : 0 < m) :
    (List.replicate m c).getLast? = some c := by
  cases m with
  | zero => omega
  | succ k =>
    rw [List.getLast?_eq_getLast_of_ne_nil (by simp), List.getLast_replicate_succ]

theorem replicate_getLastD (c : ℚ) (m : ℕ) (h : 0 < m) :
    (List.replicate m c).getLastD 0 = c := by
  rw [List.getLastD_eq_getLast?, replicate_getLast? c m h]
  rfl

theorem replicate_getD (c : ℚ) (i m : ℕ) (h : i < m) :
    (List.replicate m c).getD i 0 = c := by
  simp [List.getD, h]

theorem zipWith_replicate_same (f : ℚ → ℚ → ℚ) (a b : ℚ) :
    ∀ m, List.zipWith f (List.replicate m a) (List.replicate m b) =
      List.replicate m (f a b) := by
  intro m
  induction m with
  | zero => rfl
  | succ k ih => simp [List.replicate_succ, ih]

theorem zipWith_replicate_shift (f : ℚ → ℚ → ℚ) (a b : ℚ) :
    ∀ m, List.zipWith f (List.replicate (m+1) a) (List.replicate m b) =
      List.replicate m (f a b) := by
  intro m
  induction m with
  | zero => rfl
  | succ k ih =>
    rw [List.replicate_succ a (k+1), List.replicate_succ b k, List.zipWith_cons_cons,
      ih, List.replicate_succ]

theorem gainsOf_replicate (c : ℚ) (m : ℕ) :
    gainsOf (List.replicate m c) = List.replicate m 0 := by
  cases m with
  | zero => rfl
  | succ k =>
    rw [List.replicate_succ]
    show 0 :: List.zipWith _ (c :: List.replicate k c) (List.replicate k c) =
      List.replicate (k+1) 0
    rw [← List.replicate_succ]
    rw [zipWith_replicate_shift _ c c k]
    have : (if 0 < c - c then c - c else 0) = 0 := by simp
    rw [this, List.replicate_succ]

theorem lossesOf_replicate (c : ℚ) (m : ℕ) :
    lossesOf (List.replicate m c) = List.replicate m 0 := by
  cases m with
  | zero => rfl
  | succ k =>
    rw [List.replicate_succ]
    show 0 :: List.zipWith _ (c :: List.replicate k c) (List.replicate k c) =
      List.replicate (k+1) 0
    rw [← List.replicate_succ]
    rw [zipWith_replicate_shift _ c c k]
    have : (if c - c < 0 then -(c - c) else 0) = 0 := by simp
    rw [this, List.replicate_succ]

theorem sum_replicate_q (m : ℕ) (c : ℚ) :
    (List.replicate m c).sum = (m : ℚ) * c := by
  rw [List.sum_replicate, nsmul_eq_mul]

theorem windowAt_replicate (p i m : ℕ) (c : ℚ) (hp : p ≤ i + 1) (hi : i < m) :
    windowAt p i (List.replicate m c) = List.replicate p c := by
  unfold windowAt
  rw [List.take_replicate, List.drop_replicate]
  congr 1
  omega

theorem meanAt_replicate (p i m : ℕ) (c : ℚ) (hp : 0 < p) (hple : p ≤ i + 1)
    (hi : i < m) : meanAt p i (List.replicate m c) = some c := by
  unfold meanAt
  rw [if_pos hple, windowAt_replicate p i m c hple hi, sum_replicate_q]
  have hpne : (p : ℚ) ≠ 0 := Nat.cast_ne_zero.mpr (Nat.pos_iff_ne_zero.mp hp)
  rw [mul_div_cancel_left₀ c hpne]

theorem windowAt_replicate_zero_sum (p i m : ℕ) :
    (windowAt p i (List.replicate m (0 : ℚ))).sum = 0 := by
  unfold windowAt
  rw [List.take_replicate, List.drop_replicate, List.sum_replicate, smul_zero]

theorem rsiAt_replicate (p m i : ℕ) (c : ℚ) :
    rsiAt p (List.replicate m c) i = none := by
  unfold rsiAt
  rw [gainsOf_replicate, lossesOf_replicate]
  unfold meanAt
  by_cases hp : p ≤ i + 1
  · rw [if_pos hp, windowAt_replicate_zero_sum, zero_div]
    simp
  · rw [if_neg hp]

theorem varAt_replicate (p i m : ℕ) (c : ℚ) (hp : 0 < p) (hple : p ≤ i + 1)
    (hi : i < m) : varAt p i (List.replicate m c) = some 0 := by
  unfold varAt
  rw [if_pos hple, windowAt_replicate p i m c hple hi, sum_replicate_q]
  have hpne : (p : ℚ) ≠ 0 := Nat.cast_ne_zero.mpr (Nat.pos_iff_ne_zero.mp hp)
  rw [mul_div_cancel_left₀ c hpne, List.map_replicate]
  rw [show (c - c)^2 = 0 from by ring, List.sum_replicate, smul_zero, zero_div]

theorem emaFrom_replicate (a c : ℚ) :
    ∀ k, emaFrom a c (List.replicate k c) = List.replicate k c := by
  intro k
  induction k with
  | zero => rfl
  | succ j ih =>
    rw [List.replicate_succ]
    show (a * c + (1 - a) * c) :: emaFrom a (a * c + (1 - a) * c) (List.replicate j c) =
      List.replicate (j+1) c
    rw [show a * c + (1 - a) * c = c from by ring, ih, List.replicate_succ]

theorem emaList_replicate (p m : ℕ) (c : ℚ) :
    emaList p (List.replicate m c) = List.replicate m c := by
  cases m with
  | zero => rfl
  | succ k =>
    rw [List.replicate_succ]
    show c :: emaFrom _ c (List.replicate k c) = c :: List.replicate k c
    rw [emaFrom_replicate]

theorem macdLineOf_replicate (m : ℕ) (c : ℚ) :
    macdLineOf (List.replicate m c) = List.replicate m 0 := by
  unfold macdLineOf
  rw [emaList_replicate, emaList_replicate, zipWith_replicate_same, sub_self]

theorem macdSignalOf_replicate (m : ℕ) (c : ℚ) :
    macdSignalOf (List.replicate m c) = List.replicate m 0 := by
  unfold macdSignalOf
  rw [macdLineOf_replicate, emaList_replicate]

theorem macdHistOf_replicate (m : ℕ) (c : ℚ) :
    macdHistOf (List.replicate m c) = List.replicate m 0 := by
  unfold macdHistOf
  rw [macdLineOf_replicate, macdSignalOf_replicate, zipWith_replicate_same, sub_self]

/-- Snapshot of a constant price series with at least 51 bars: price and all
moving averages equal the constant, RSI is undefined (0/0), the Bollinger
standard deviation is `sq 0 = 0` so both bands coincide with the price, and
the MACD family is identically 0. -/
theorem analyzeSnapshot_replicate (sq : ℚ → ℚ) (hsq : sq 0 = 0) (m : ℕ)
    (hm : 51 ≤ m) (c : ℚ) :
    analyzeSnapshot sq (List.replicate m c) =
      ⟨c, none, some c, some c, some c, some c, some c, some c, some c,
        some 0, some 0, some 0⟩ := by
  have hm0 : 0 < m := by omega
  have hlen : (List.replicate m c).length = m := List.length_replicate m c
  unfold analyzeSnapshot
  rw [hlen]
  rw [replicate_getLastD c m hm0]
  rw [rsiAt_replicate]
  rw [meanAt_replicate 20 (m-1) m c (by omega) (by omega) (by omega)]
  rw [meanAt_replicate 50 (m-1) m c (by omega) (by omega) (by omega)]
  rw [emaList_replicate, emaList_replicate, replicate_getLast? c m hm0]
  rw [varAt_replicate 20 (m-1) m c (by omega) (by omega) (by omega)]
  rw [macdLineOf_replicate, macdSignalOf_replicate, macdHistOf_replicate,
    replicate_getLast? 0 m hm0]
  simp [hsq]

/-- Signal generated from a constant-series snapshot with nonzero price: only
the lower-Bollinger-band rule fires (price equals the collapsed band), giving
strength 1/5, one reason, and overall label `buy`. -/
theorem generateSignals_flat (c : ℚ) (hc : c ≠ 0) :
    generateSignals 30 70
      ⟨c, none, some c, some c, some c, some c, some c, some c, some c,
        some 0, some 0, some 0⟩ =
      ⟨SubSig.neutral, SubSig.neutral, SubSig.neutral, SubSig.buy, SigLabel.buy,
        1/5, [Reason.atLowerBand]⟩ := by
  norm_num [generateSignals, rsiRule, maRule, macdRule, bbRule, hc]

/-! ### Backtest fold lemmas -/

theorem statesUpTo_zero (sq : ℚ → ℚ) (cap pct : ℚ) (data : List ℚ) :
    statesUpTo sq cap pct data 0 = initState cap := rfl

/-- Loop body decomposition: the equity point appended at bar `i` is the
mark-to-market value of the post-decision state at that bar's close. -/
theorem btStep_eq (sq : ℚ → ℚ) (pct : ℚ) (data : List ℚ) (st : BTState) (i : ℕ) :
    btStep sq pct data st i =
      { tradeStep sq pct data st i with
        equity := st.equity ++ [mark (tradeStep sq pct data st i) (data.getD i 0)] } := rfl

theorem statesUpTo_succ (sq : ℚ → ℚ) (cap pct : ℚ) (data : List ℚ) (k : ℕ) :
    statesUpTo sq cap pct data (k+1) =
      btStep sq pct data (statesUpTo sq cap pct data k) k := by
  unfold statesUpTo
  rw [List.range_succ, List.foldl_append]
  rfl

/-- Loop invariant on a flat series at 100 with the default configuration:
the state never leaves FLAT (the flat-series signal strength 1/5 is below the
0.3 entry threshold), capital stays at 100000, no trades are recorded, and
the equity curve is `k+1` copies of 100000 after `k` bars. -/
theorem statesUpTo_flat (sq : ℚ → ℚ) (hsq : sq 0 = 0) (n k : ℕ) (hk : k ≤ n) :
    statesUpTo sq 100000 (1/10) (List.replicate n (100 : ℚ)) k =
      ⟨100000, 0, 0, [], List.replicate (k+1) 100000⟩ := by
  induction k with
  | zero => rfl
  | succ j ih =>
    have hj : j ≤ n := by omega
    have hjn : j < n := by omega
    rw [statesUpTo_succ, ih hj]
    have hmark : mark ⟨100000, 0, 0, [], List.replicate (j+1) 100000⟩
        ((List.replicate n (100 : ℚ)).getD j 0) = 100000 := by
      unfold mark
      norm_num
    have ht : tradeStep sq (1/10) (List.replicate n (100 : ℚ))
        ⟨100000, 0, 0, [], List.replicate (j+1) 100000⟩ j =
        ⟨100000, 0, 0, [], List.replicate (j+1) 100000⟩ := by
      by_cases h50 : j < 50
      · unfold tradeStep
        rw [if_pos h50]
      · have htake : (List.replicate n (100 : ℚ)).take (j+1) = List.replicate (j+1) 100 := by
          rw [List.take_replicate]
          congr 1
          omega
        have hsig : generateSignals 30 70
            (analyzeSnapshot sq ((List.replicate n (100 : ℚ)).take (j+1))) =
            ⟨SubSig.neutral, SubSig.neutral, SubSig.neutral, SubSig.buy, SigLabel.buy,
              1/5, [Reason.atLowerBand]⟩ := by
          rw [htake, analyzeSnapshot_replicate sq hsq (j+1) (by omega) 100]
          exact generateSignals_flat 100 (by norm_num)
        unfold tradeStep
        rw [if_neg h50]
        simp only [hsig]
        rw [if_neg (fun hc => absurd hc.2.2 (by norm_num))]
        rw [if_neg (lt_irrefl (0 : ℤ))]
    rw [btStep_eq, ht, hmark, ← List.replicate_succ' (j+1) (100000 : ℚ)]

/-- Backtest result projections when the loop finishes with no open position:
no forced liquidation happens, so the trade list, final capital and equity
curve are those of the loop state. -/
theorem runBacktest_no_position (sq : ℚ → ℚ) (cap pct : ℚ) (data : List ℚ)
    (h : (runStates sq cap pct data).position = 0) :
    (runBacktest sq cap pct data).trades = (runStates sq cap pct data).trades ∧
    (runBacktest sq cap pct data).finalCapital = (runStates sq cap pct data).capital ∧
    (runBacktest sq cap pct data).equity = (runStates sq cap pct data).equity := by
  simp only [runBacktest, h, lt_irrefl, if_false]
  exact ⟨trivial, trivial, trivial⟩

/-! ### Claim C1 -/

/-- C1 counterexample: on the 60-bar flat series at 100, the signal analysis
the backtest performs at its first decision bar (bar 50, expanding window of
51 bars) does fire a rule — the price equals the collapsed lower Bollinger
band — so the strength is 1/5, not 0, and a reason is recorded, contradicting
the claim that no rule fires on a flat series. -/
theorem C1_flat_counterexample :
    generateSignals 30 70 (analyzeSnapshot id ((List.replicate 60 (100 : ℚ)).take 51)) =
      ⟨SubSig.neutral, SubSig.neutral, SubSig.neutral, SubSig.buy, SigLabel.buy, 1/5,
        [Reason.atLowerBand]⟩ ∧
    ¬ (generateSignals 30 70 (analyzeSnapshot id ((List.replicate 60 (100 : ℚ)).take 51))).strength = 0 ∧
    ¬ (generateSignals 30 70 (analyzeSnapshot id ((List.replicate 60 (100 : ℚ)).take 51))).reasons = [] := by
  have htake : (List.replicate 60 (100 : ℚ)).take 51 = List.replicate 51 100 := by
    rw [List.take_replicate]
    congr 1
  have h : generateSignals 30 70 (analyzeSnapshot id ((List.replicate 60 (100 : ℚ)).take 51)) =
      ⟨SubSig.neutral, SubSig.neutral, SubSig.neutral, SubSig.buy, SigLabel.buy, 1/5,
        [Reason.atLowerBand]⟩ := by
    rw [htake, analyzeSnapshot_replicate id rfl 51 (by norm_num) 100]
    exact generateSignals_flat 100 (by norm_num)
  refine ⟨h, ?_, ?_⟩
  · rw [h]
    norm_num
  · rw [h]
    simp

/-- C1 amended: on a flat series (close constant at 100 for n ≥ 60 bars) with
the default configuration, RSI is undefined at every bar; at every decision
bar exactly one rule fires (the lower-Bollinger-band rule, the bands having
collapsed onto the price), giving strength 1/5 — below the 0.3 entry
threshold — so the trade list is empty, the equity curve is flat at 100000,
and finalCapital equals initialCapital exactly. -/
theorem C1_flat_amended (n : ℕ) (hn : 60 ≤ n) (sq : ℚ → ℚ) (hsq : sq 0 = 0) :
    (∀ o ∈ rsiList 14 (List.replicate n (100 : ℚ)), o = none) ∧
    (∀ i, 50 ≤ i → i < n →
      generateSignals 30 70 (analyzeSnapshot sq ((List.replicate n (100 : ℚ)).take (i+1))) =
        ⟨SubSig.neutral, SubSig.neutral, SubSig.neutral, SubSig.buy, SigLabel.buy, 1/5,
          [Reason.atLowerBand]⟩) ∧
    (runBacktest sq 100000 (1/10) (List.replicate n (100 : ℚ))).trades = [] ∧
    (runBacktest sq 100000 (1/10) (List.replicate n (100 : ℚ))).finalCapital = 100000 ∧
    (runBacktest sq 100000 (1/10) (List.replicate n (100 : ℚ))).equity =
      List.replicate (n+1) 100000 := by
  have hst : runStates sq 100000 (1/10) (List.replicate n (100 : ℚ)) =
      ⟨100000, 0, 0, [], List.replicate (n+1) 100000⟩ := by
    unfold runStates
    rw [List.length_replicate]
    exact statesUpTo_flat sq hsq n n (le_refl n)
  obtain ⟨ht, hc, he⟩ := runBacktest_no_position sq 100000 (1/10)
    (List.replicate n (100 : ℚ)) (by rw [hst])
  refine ⟨?_, ?_, ?_, ?_, ?_⟩
  · intro o ho
    obtain ⟨i, _, hi⟩ := List.mem_map.mp ho
    rw [← hi, rsiAt_replicate]
  · intro i h50 hin
    have htake : (List.replicate n (100 : ℚ)).take (i+1) = List.replicate (i+1) 100 := by
      rw [List.take_replicate]
      congr 1
      omega
    rw [htake, analyzeSnapshot_replicate sq hsq (i+1) (by omega) 100]
    exact generateSignals_flat 100 (by norm_num)
  · rw [ht, hst]
  · rw [hc, hst]
  · rw [he, hst]

/-- Witness for the amended C1 at the concrete length 60 with the identity
square-root model. -/
theorem C1_flat_amended_witness :
    (60 : ℕ) ≤ 60 ∧
    ((∀ o ∈ rsiList 14 (List.replicate 60 (100 : ℚ)), o = none) ∧
    (∀ i, 50 ≤ i → i < 60 →
      generateSignals 30 70 (analyzeSnapshot id ((List.replicate 60 (100 : ℚ)).take (i+1))) =
        ⟨SubSig.neutral, SubSig.neutral, SubSig.neutral, SubSig.buy, SigLabel.buy, 1/5,
          [Reason.atLowerBand]⟩) ∧
    (runBacktest id 100000 (1/10) (List.replicate 60 (100 : ℚ))).trades = [] ∧
    (runBacktest id 100000 (1/10) (List.replicate 60 (100 : ℚ))).finalCapital = 100000 ∧
    (runBacktest id 100000 (1/10) (List.replicate 60 (100 : ℚ))).equity =
      List.replicate 61 100000) :=
  ⟨le_refl 60, C1_flat_amended 60 (le_refl 60) id rfl⟩

/-! ### C2 witness -/

/-- Witness for C2: a LONG position of 5 shares entered at 200, evaluated at
decision bar 50 of a 51-bar flat series at 100.  The flat-series signal is
`buy` with strength 1/5, so the sell-signal condition fails, and the return
(100−200)/200 = −1/2 breaches the −5% stop, so the step exits via the
stop-loss rule. -/
theorem C2_long_exit_priority_witness :
    (0 : ℤ) < 5 ∧ (50 : ℕ) ≤ 50 ∧
    tradeStep id (1/10) (List.replicate 51 (100 : ℚ)) ⟨1000, 5, 200, [], []⟩ 50 =
      exitAt 50 100 ⟨1000, 5, 200, [], []⟩
        ⟨SubSig.neutral, SubSig.neutral, SubSig.neutral, SubSig.buy, SigLabel.buy, 1/5,
          [Reason.atLowerBand]⟩
        ExitReason.stopLoss (-(1/2)) := by
  have htake : (List.replicate 51 (100 : ℚ)).take 51 = List.replicate 51 100 := by
    rw [List.take_replicate]
    congr 1
  have hsig : (⟨SubSig.neutral, SubSig.neutral, SubSig.neutral, SubSig.buy, SigLabel.buy,
      1/5, [Reason.atLowerBand]⟩ : Signals) =
      generateSignals 30 70 (analyzeSnapshot id ((List.replicate 51 (100 : ℚ)).take (50+1))) := by
    rw [htake, analyzeSnapshot_replicate id rfl 51 (by norm_num) 100,
      generateSignals_flat 100 (by norm_num)]
  have hprice : (100 : ℚ) = (List.replicate 51 (100 : ℚ)).getD 50 0 :=
    (replicate_getD 100 50 51 (by norm_num)).symm
  have hpnl : (-(1/2) : ℚ) = ((100 : ℚ) - (⟨1000, 5, 200, [], []⟩ : BTState).entryPrice) /
      (⟨1000, 5, 200, [], []⟩ : BTState).entryPrice := by
    norm_num
  have h := C2_long_exit_priority id (1/10) (List.replicate 51 (100 : ℚ))
    ⟨1000, 5, 200, [], []⟩ 50 (by norm_num) (le_refl 50) _ hsig _ hprice _ hpnl
  refine ⟨by norm_num, le_refl 50, h.2.1 ?_ ?_⟩
  · rintro ⟨hlab, -⟩
    rcases hlab with hlab | hlab <;> exact absurd hlab (by simp)
  · norm_num

/-! ### Claim C3 -/

theorem mark_eq_of (st1 st2 : BTState) (h1 : st1.capital = st2.capital)
    (h2 : st1.position = st2.position) (p : ℚ) : mark st1 p = mark st2 p := by
  unfold mark
  rw [h1, h2]

theorem statesUpTo_equity (sq : ℚ → ℚ) (cap pct : ℚ) (data : List ℚ) :
    ∀ k, (statesUpTo sq cap pct data k).equity =
      cap :: (List.range k).map
        (fun i => mark (statesUpTo sq cap pct data (i+1)) (data.getD i 0)) := by
  intro k
  induction k with
  | zero => rfl
  | succ j ih =>
    rw [statesUpTo_succ, btStep_eq]
    show (statesUpTo sq cap pct data j).equity ++ [_] = _
    rw [ih, List.range_succ, List.map_append]
    rw [mark_eq_of (tradeStep sq pct data (statesUpTo sq cap pct data j) j)
      (statesUpTo sq cap pct data (j+1))
      (by rw [statesUpTo_succ]; rfl) (by rw [statesUpTo_succ]; rfl) (data.getD j 0)]
    rfl

/-- C3 counterexample: on the one-bar series `[100]`, the equity curve of the
backtest loop has 2 points, not 1 — the curve is seeded with the initial
capital before the loop — so the claimed "exactly n points" fails. -/
theorem C3_equity_counterexample :
    (runStates id 100000 (1/10) [(100 : ℚ)]).equity.length = 2 ∧
    [(100 : ℚ)].length = 1 ∧ (2 : ℕ) ≠ 1 := by
  have h : runStates id 100000 (1/10) [(100 : ℚ)] =
      ⟨100000, 0, 0, [], [100000, 100000]⟩ := by
    show statesUpTo id 100000 (1/10) [(100 : ℚ)] 1 = _
    rw [statesUpTo_succ, statesUpTo_zero, btStep_eq]
    have ht : tradeStep id (1/10) [(100 : ℚ)] (initState 100000) 0 = initState 100000 := by
      unfold tradeStep
      rw [if_pos (by norm_num)]
    rw [ht]
    unfold initState mark
    norm_num
  rw [h]
  exact ⟨rfl, rfl, by norm_num⟩

/-- C3 amended: for every input series of length n, the equity curve has
exactly n+1 points — one initial point equal to the starting capital
(`equity_curve = [capital]` before the loop) followed by one point per bar,
including warm-up bars; the point of bar i is the mark-to-market value
(capital + shares×price when LONG, capital when FLAT, per `mark`) of the
post-decision state of that bar at that bar's close.  The final
`BTResult.equity` equals the loop curve, as forced liquidation does not
append an equity point. -/
theorem C3_equity_amended (sq : ℚ → ℚ) (cap pct : ℚ) (data : List ℚ) :
    (runStates sq cap pct data).equity.length = data.length + 1 ∧
    (runStates sq cap pct data).equity =
      cap :: (List.range data.length).map
        (fun i => mark (statesUpTo sq cap pct data (i+1)) (data.getD i 0)) ∧
    (runBacktest sq cap pct data).equity = (runStates sq cap pct data).equity := by
  refine ⟨?_, statesUpTo_equity sq cap pct data data.length, ?_⟩
  · show (statesUpTo sq cap pct data data.length).equity.length = data.length + 1
    rw [statesUpTo_equity sq cap pct data data.length]
    simp
  · simp only [runBacktest]
    split
    · rfl
    · rfl

/-! ### Drawdown lemmas -/

theorem foldl_min_le_init (l : List ℚ) : ∀ a : ℚ, l.foldl min a ≤ a := by
  induction l with
  | nil => intro a; exact le_refl a
  | cons x rest ih =>
    intro a
    exact le_trans (ih (min a x)) (min_le_left a x)

theorem foldl_min_le_mem (l : List ℚ) : ∀ (a x : ℚ), x ∈ l → l.foldl min a ≤ x := by
  induction l with
  | nil => intro a x hx; exact absurd hx (List.not_mem_nil x)
  | cons y rest ih =>
    intro a x hx
    rcases List.mem_cons.mp hx with h | h
    · subst h
      exact le_trans (foldl_min_le_init rest (min a x)) (min_le_right a x)
    · exact ih (min a y) x h

theorem le_foldl_min (l : List ℚ) : ∀ (a b : ℚ), b ≤ a → (∀ x ∈ l, b ≤ x) →
    b ≤ l.foldl min a := by
  induction l with
  | nil => intro a b h _; exact h
  | cons x rest ih =>
    intro a b hba hall
    exact ih (min a x) b (le_min hba (hall x (List.mem_cons_self x rest)))
      (fun y hy => hall y (List.mem_cons_of_mem x hy))

theorem drawdown_tail_nonpos :
    ∀ (xs : List ℚ) (m : ℚ), 0 < m → (∀ x ∈ xs, 0 < x) →
    ∀ d ∈ List.zipWith (fun e mm => (e - mm) / mm * 100) xs (cummaxFrom m xs), d ≤ 0 := by
  intro xs
  induction xs with
  | nil => intro m _ _ d hd; exact absurd hd (List.not_mem_nil d)
  | cons x rest ih =>
    intro m hm hpos d hd
    have hmx : 0 < max m x := lt_of_lt_of_le hm (le_max_left m x)
    rw [show cummaxFrom m (x :: rest) = max m x :: cummaxFrom (max m x) rest from rfl,
      List.zipWith_cons_cons] at hd
    rcases List.mem_cons.mp hd with h | h
    · subst h
      apply mul_nonpos_of_nonpos_of_nonneg _ (by norm_num)
      apply div_nonpos_of_nonpos_of_nonneg _ (le_of_lt hmx)
      have := le_max_right m x
      linarith
    · exact ih (max m x) hmx
        (fun y hy => hpos y (List.mem_cons_of_mem x hy)) d h

theorem drawdown_tail_zero_iff :
    ∀ (xs : List ℚ) (m : ℚ), 0 < m → (∀ x ∈ xs, 0 < x) →
    ((∀ d ∈ List.zipWith (fun e mm => (e - mm) / mm * 100) xs (cummaxFrom m xs), d = 0) ↔
      List.Chain (· ≤ ·) m xs) := by
  intro xs
  induction xs with
  | nil =>
    intro m _ _
    constructor
    · intro _; exact List.Chain.nil
    · intro _ d hd; exact absurd hd (List.not_mem_nil d)
  | cons x rest ih =>
    intro m hm hpos
    have hx : 0 < x := hpos x (List.mem_cons_self x rest)
    have hmx : 0 < max m x := lt_of_lt_of_le hm (le_max_left m x)
    rw [show cummaxFrom m (x :: rest) = max m x :: cummaxFrom (max m x) rest from rfl,
      List.zipWith_cons_cons, List.forall_mem_cons, List.chain_cons]
    have hhead : (x - max m x) / max m x * 100 = 0 ↔ m ≤ x := by
      constructor
      · intro h
        rcases mul_eq_zero.mp h with h | h
        · rcases div_eq_zero_iff.mp h with h | h
          · have : max m x = x := by linarith
            exact max_eq_right_iff.mp this
          · exact absurd h (ne_of_gt hmx)
        · norm_num at h
      · intro h
        rw [max_eq_right h, sub_self, zero_div, zero_mul]
    by_cases hmle : m ≤ x
    · rw [max_eq_right hmle] at *
      rw [ih x hx (fun y hy => hpos y (List.mem_cons_of_mem x hy))]
      simp [hhead, hmle]
    · constructor
      · intro hc
        exact absurd (hhead.mp hc.1) hmle
      · intro hc
        exact absurd hc.1 hmle

/-- Characterization of the maximum drawdown of a nonempty equity curve with
positive values: it is at most 0, and it is 0 exactly when the curve is
non-decreasing. -/
theorem maxDrawdownOf_spec (e0 : ℚ) (rest : List ℚ) (hpos : ∀ x ∈ e0 :: rest, 0 < x) :
    maxDrawdownOf (e0 :: rest) ≤ 0 ∧
    (maxDrawdownOf (e0 :: rest) = 0 ↔ List.Chain' (· ≤ ·) (e0 :: rest)) := by
  have he0 : 0 < e0 := hpos e0 (List.mem_cons_self e0 rest)
  have hrest : ∀ x ∈ rest, 0 < x := fun x hx => hpos x (List.mem_cons_of_mem e0 hx)
  have hdd : drawdownsOf (e0 :: rest) =
      0 :: List.zipWith (fun e mm => (e - mm) / mm * 100) rest (cummaxFrom e0 rest) := by
    unfold drawdownsOf cummaxOf
    rw [List.zipWith_cons_cons, sub_self, zero_div, zero_mul]
  have hmin : maxDrawdownOf (e0 :: rest) =
      (List.zipWith (fun e mm => (e - mm) / mm * 100) rest (cummaxFrom e0 rest)).foldl min 0 := by
    unfold maxDrawdownOf
    rw [hdd]
    rfl
  have hchain : List.Chain' (· ≤ ·) (e0 :: rest) ↔ List.Chain (· ≤ ·) e0 rest := Iff.rfl
  constructor
  · rw [hmin]
    exact foldl_min_le_init _ 0
  · rw [hmin, hchain, ← drawdown_tail_zero_iff rest e0 he0 hrest]
    constructor
    · intro h d hd
      have h1 : d ≤ 0 := drawdown_tail_nonpos rest e0 he0 hrest d hd
      have h2 : (0 : ℚ) ≤ d := h ▸ foldl_min_le_mem _ 0 d hd
      linarith
    · intro h
      have h1 : (List.zipWith (fun e mm => (e - mm) / mm * 100) rest
          (cummaxFrom e0 rest)).foldl min 0 ≤ 0 := foldl_min_le_init _ 0
      have h2 : (0 : ℚ) ≤ (List.zipWith (fun e mm => (e - mm) / mm * 100) rest
          (cummaxFrom e0 rest)).foldl min 0 :=
        le_foldl_min _ 0 0 (le_refl 0) (fun x hx => le_of_eq (h x hx).symm)
      linarith

/-! ### Capital/position invariant of the backtest loop -/

theorem getD_mem_of_lt (data : List ℚ) (k : ℕ) (hk : k < data.length) :
    data.getD k 0 ∈ data := by
  rw [List.getD_eq_getElem?_getD, List.getElem?_eq_getElem hk]
  exact List.getElem_mem hk

theorem tradeStep_inv (sq : ℚ → ℚ) (pct : ℚ) (data : List ℚ) (st : BTState) (i : ℕ)
    (hpct0 : 0 ≤ pct) (hpct1 : pct ≤ 1) (hprice : 0 < data.getD i 0)
    (h1 : 0 ≤ st.position) (h2 : st.position = 0 → 0 < st.capital)
    (h3 : 0 < st.position → 0 ≤ st.capital) :
    0 ≤ (tradeStep sq pct data st i).position ∧
    ((tradeStep sq pct data st i).position = 0 → 0 < (tradeStep sq pct data st i).capital) ∧
    (0 < (tradeStep sq pct data st i).position → 0 ≤ (tradeStep sq pct data st i).capital) := by
  simp only [tradeStep, exitAt]
  split_ifs with h50 hbuy hsh hpos2 hsell hstop htp
  · exact ⟨h1, h2, h3⟩
  · have hcap : 0 < st.capital := h2 hbuy.1
    have hval : 0 ≤ st.capital * pct / data.getD i 0 :=
      div_nonneg (mul_nonneg (le_of_lt hcap) hpct0) (le_of_lt hprice)
    have hfl : (truncQ (st.capital * pct / data.getD i 0) : ℚ) ≤
        st.capital * pct / data.getD i 0 := by
      rw [truncQ_eq_floor hval]
      exact Int.floor_le _
    have hcost : (truncQ (st.capital * pct / data.getD i 0) : ℚ) * data.getD i 0 ≤
        st.capital := by
      calc (truncQ (st.capital * pct / data.getD i 0) : ℚ) * data.getD i 0 ≤
            (st.capital * pct / data.getD i 0) * data.getD i 0 :=
            mul_le_mul_of_nonneg_right hfl (le_of_lt hprice)
        _ = st.capital * pct := div_mul_cancel₀ _ (ne_of_gt hprice)
        _ ≤ st.capital * 1 := mul_le_mul_of_nonneg_left hpct1 (le_of_lt hcap)
        _ = st.capital := mul_one _
    exact ⟨le_of_lt hsh, fun hz => absurd hz (ne_of_gt hsh), fun _ => by
      show (0 : ℚ) ≤ st.capital - _ * data.getD i 0
      linarith⟩
  · exact ⟨h1, h2, h3⟩
  · refine ⟨le_refl 0, fun _ => ?_, fun hz => absurd hz (lt_irrefl 0)⟩
    have hc := h3 hpos2
    have hpp : 0 < (st.position : ℚ) * data.getD i 0 :=
      mul_pos (by exact_mod_cast hpos2) hprice
    show (0 : ℚ) < st.capital + (st.position : ℚ) * data.getD i 0
    linarith
  · refine ⟨le_refl 0, fun _ => ?_, fun hz => absurd hz (lt_irrefl 0)⟩
    have hc := h3 hpos2
    have hpp : 0 < (st.position : ℚ) * data.getD i 0 :=
      mul_pos (by exact_mod_cast hpos2) hprice
    show (0 : ℚ) < st.capital + (st.position : ℚ) * data.getD i 0
    linarith
  · refine ⟨le_refl 0, fun _ => ?_, fun hz => absurd hz (lt_irrefl 0)⟩
    have hc := h3 hpos2
    have hpp : 0 < (st.position : ℚ) * data.getD i 0 :=
      mul_pos (by exact_mod_cast hpos2) hprice
    show (0 : ℚ) < st.capital + (st.position : ℚ) * data.getD i 0
    linarith
  · exact ⟨h1, h2, h3⟩
  · exact ⟨h1, h2, h3⟩

theorem mark_pos (st : BTState) (p : ℚ) (hp : 0 < p) (h1 : 0 ≤ st.position)
    (h2 : st.position = 0 → 0 < st.capital) (h3 : 0 < st.position → 0 ≤ st.capital) :
    0 < mark st p := by
  unfold mark
  by_cases hpos : 0 < st.position
  · rw [if_pos hpos]
    have hc := h3 hpos
    have hpp : 0 < (st.position : ℚ) * p := mul_pos (by exact_mod_cast hpos) hp
    linarith
  · rw [if_neg hpos, add_zero]
    exact h2 (le_antisymm (not_lt.1 hpos) h1)

theorem statesUpTo_inv (sq : ℚ → ℚ) (cap pct : ℚ) (data : List ℚ)
    (hcap : 0 < cap) (hpct0 : 0 ≤ pct) (hpct1 : pct ≤ 1)
    (hdata : ∀ p ∈ data, 0 < p) :
    ∀ k, k ≤ data.length →
      0 ≤ (statesUpTo sq cap pct data k).position ∧
      ((statesUpTo sq cap pct data k).position = 0 →
        0 < (statesUpTo sq cap pct data k).capital) ∧
      (0 < (statesUpTo sq cap pct data k).position →
        0 ≤ (statesUpTo sq cap pct data k).capital) ∧
      (∀ x ∈ (statesUpTo sq cap pct data k).equity, 0 < x) := by
  intro k
  induction k with
  | zero =>
    intro _
    refine ⟨le_refl 0, fun _ => hcap, fun hz => absurd hz (lt_irrefl 0), ?_⟩
    intro x hx
    have : x = cap := List.mem_singleton.mp hx
    rw [this]
    exact hcap
  | succ j ih =>
    intro hk
    have hj := ih (by omega)
    have hjd : j < data.length := by omega
    have hprice : 0 < data.getD j 0 := hdata _ (getD_mem_of_lt data j hjd)
    have hstep := tradeStep_inv sq pct data (statesUpTo sq cap pct data j) j
      hpct0 hpct1 hprice hj.1 hj.2.1 hj.2.2.1
    rw [statesUpTo_succ, btStep_eq]
    refine ⟨hstep.1, hstep.2.1, hstep.2.2, ?_⟩
    intro x hx
    rcases List.mem_append.mp hx with h | h
    · exact hj.2.2.2 x h
    · have : x = mark (tradeStep sq pct data (statesUpTo sq cap pct data j) j)
          (data.getD j 0) := List.mem_singleton.mp h
      rw [this]
      exact mark_pos _ _ hprice hstep.1 hstep.2.1 hstep.2.2

/-! ### Claim C7 -/

/-- C7: for every backtest run (positive initial capital, position size
fraction in [0,1], positive prices), the reported maxDrawdownPct — the
minimum over the equity curve of `(equity − runningMax)/runningMax × 100` —
is at most 0, and it equals 0 exactly when the equity curve is
non-decreasing. -/
theorem C7_max_drawdown (sq : ℚ → ℚ) (cap pct : ℚ) (data : List ℚ)
    (hcap : 0 < cap) (hpct0 : 0 ≤ pct) (hpct1 : pct ≤ 1)
    (hdata : ∀ p ∈ data, 0 < p) :
    (runBacktest sq cap pct data).maxDrawdownPct ≤ 0 ∧
    ((runBacktest sq cap pct data).maxDrawdownPct = 0 ↔
      List.Chain' (· ≤ ·) (runBacktest sq cap pct data).equity) := by
  have hfields : (runBacktest sq cap pct data).equity = (runStates sq cap pct data).equity ∧
      (runBacktest sq cap pct data).maxDrawdownPct =
        maxDrawdownOf (runStates sq cap pct data).equity := by
    simp only [runBacktest]
    split
    · exact ⟨rfl, rfl⟩
    · exact ⟨rfl, rfl⟩
  have hinv := statesUpTo_inv sq cap pct data hcap hpct0 hpct1 hdata data.length
    (le_refl data.length)
  have heq : (runStates sq cap pct data).equity =
      cap :: (List.range data.length).map
        (fun i => mark (statesUpTo sq cap pct data (i+1)) (data.getD i 0)) :=
    statesUpTo_equity sq cap pct data data.length
  have hpos : ∀ x ∈ cap :: (List.range data.length).map
      (fun i => mark (statesUpTo sq cap pct data (i+1)) (data.getD i 0)), 0 < x := by
    rw [← heq]
    exact hinv.2.2.2
  rw [hfields.1, hfields.2, heq]
  exact maxDrawdownOf_spec cap _ hpos

/-- Witness for C7: the one-bar series `[1]` with capital 1 and position size
fraction 0 satisfies the hypotheses. -/
theorem C7_max_drawdown_witness :
    (0 : ℚ) < 1 ∧ (0 : ℚ) ≤ 0 ∧ (0 : ℚ) ≤ 1 ∧
    ((runBacktest id 1 0 [(1 : ℚ)]).maxDrawdownPct ≤ 0 ∧
    ((runBacktest id 1 0 [(1 : ℚ)]).maxDrawdownPct = 0 ↔
      List.Chain' (· ≤ ·) (runBacktest id 1 0 [(1 : ℚ)]).equity)) :=
  ⟨by norm_num, le_refl 0, by norm_num,
    C7_max_drawdown id 1 0 [(1 : ℚ)] (by norm_num) (le_refl 0) (by norm_num)
      (fun p hp => by
        have : p = 1 := List.mem_singleton.mp hp
        rw [this]
        norm_num)⟩

/-! ### Signal-rule characterization lemmas -/

theorem optPos_iff (o : Option ℚ) : optPos o = true ↔ ∃ h, o = some h ∧ 0 < h := by
  cases o <;> simp [optPos]

theorem optNeg_iff (o : Option ℚ) : optNeg o = true ↔ ∃ h, o = some h ∧ h < 0 := by
  cases o <;> simp [optNeg]

theorem rsiRule_reasons (os ob : ℚ) (ind : Snapshot) (hoo : os ≤ ob) :
    (Reason.rsiOversold ∈ (rsiRule os ob ind).2.2 ↔ ∃ r, ind.rsi = some r ∧ r < os) ∧
    (Reason.rsiOverbought ∈ (rsiRule os ob ind).2.2 ↔ ∃ r, ind.rsi = some r ∧ ob < r) ∧
    (∀ x ∈ (rsiRule os ob ind).2.2, x = Reason.rsiOversold ∨ x = Reason.rsiOverbought) ∧
    (rsiRule os ob ind).2.1 =
      (if Reason.rsiOversold ∈ (rsiRule os ob ind).2.2 then (3 : ℚ)/10 else 0) +
      (if Reason.rsiOverbought ∈ (rsiRule os ob ind).2.2 then -((3 : ℚ)/10) else 0) := by
  cases hr : ind.rsi with
  | none => simp [rsiRule, hr]
  | some r =>
    by_cases h1 : r < os
    · have hng : ¬ ob < r := by
        intro hc
        linarith
      have hv : rsiRule os ob ind = (SubSig.buy, (3 : ℚ)/10, [Reason.rsiOversold]) := by
        simp only [rsiRule, hr]
        rw [if_pos h1]
      rw [hv]
      simp [hr, h1, hng]
    · by_cases h2 : ob < r
      · have hv : rsiRule os ob ind =
            (SubSig.sell, -((3 : ℚ)/10), [Reason.rsiOverbought]) := by
          simp only [rsiRule, hr]
          rw [if_neg h1, if_pos h2]
        rw [hv]
        simp [hr, h1, h2]
      · have hv : rsiRule os ob ind = (SubSig.neutral, 0, []) := by
          simp only [rsiRule, hr]
          rw [if_neg h1, if_neg h2]
        rw [hv]
        simp [hr, h1, h2]

theorem maRule_reasons (ind : Snapshot) :
    (Reason.goldenCross ∈ (maRule ind).2.2 ↔
      ∃ a b2, ind.smaShort = some a ∧ ind.smaLong = some b2 ∧
        a ≠ 0 ∧ b2 ≠ 0 ∧ b2 < a) ∧
    (Reason.deathCross ∈ (maRule ind).2.2 ↔
      ∃ a b2, ind.smaShort = some a ∧ ind.smaLong = some b2 ∧
        a ≠ 0 ∧ b2 ≠ 0 ∧ a < b2) ∧
    (∀ x ∈ (maRule ind).2.2, x = Reason.goldenCross ∨ x = Reason.deathCross) ∧
    (maRule ind).2.1 =
      (if Reason.goldenCross ∈ (maRule ind).2.2 then (1 : ℚ)/4 else 0) +
      (if Reason.deathCross ∈ (maRule ind).2.2 then -((1 : ℚ)/4) else 0) := by
  cases ha : ind.smaShort with
  | none => simp [maRule, ha]
  | some a =>
    cases hb : ind.smaLong with
    | none => simp [maRule, ha, hb]
    | some b2 =>
      by_cases hne : a ≠ 0 ∧ b2 ≠ 0
      · by_cases hgt : b2 < a
        · have hv : maRule ind = (SubSig.bullish, (1 : ℚ)/4, [Reason.goldenCross]) := by
            simp only [maRule, ha, hb]
            rw [if_pos hne, if_pos hgt]
          rw [hv]
          simp [ha, hb, hne.1, hne.2, hgt, lt_asymm hgt]
        · by_cases hlt : a < b2
          · have hv : maRule ind = (SubSig.bearish, -((1 : ℚ)/4), [Reason.deathCross]) := by
              simp only [maRule, ha, hb]
              rw [if_pos hne, if_neg hgt, if_pos hlt]
            rw [hv]
            simp [ha, hb, hne.1, hne.2, hgt, hlt]
          · have hv : maRule ind = (SubSig.neutral, 0, []) := by
              simp only [maRule, ha, hb]
              rw [if_pos hne, if_neg hgt, if_neg hlt]
            rw [hv]
            simp [ha, hb, hne.1, hne.2, hgt, hlt]
      · have hv : maRule ind = (SubSig.neutral, 0, []) := by
          simp only [maRule, ha, hb]
          rw [if_neg hne]
        rw [hv]
        rw [not_and_or] at hne
        rcases hne with h | h <;> simp [ha, hb, not_not.mp h]

theorem macdRule_reasons (ind : Snapshot) :
    (Reason.macdBullish ∈ (macdRule ind).2.2 ↔
      ∃ m s, ind.macd = some m ∧ ind.macdSig = some s ∧
        m ≠ 0 ∧ s ≠ 0 ∧ s < m ∧ optPos ind.macdHist = true) ∧
    (Reason.macdBearish ∈ (macdRule ind).2.2 ↔
      ∃ m s, ind.macd = some m ∧ ind.macdSig = some s ∧
        m ≠ 0 ∧ s ≠ 0 ∧ m < s ∧ optNeg ind.macdHist = true) ∧
    (∀ x ∈ (macdRule ind).2.2, x = Reason.macdBullish ∨ x = Reason.macdBearish) ∧
    (macdRule ind).2.1 =
      (if Reason.macdBullish ∈ (macdRule ind).2.2 then (1 : ℚ)/4 else 0) +
      (if Reason.macdBearish ∈ (macdRule ind).2.2 then -((1 : ℚ)/4) else 0) := by
  cases hm : ind.macd with
  | none => simp [macdRule, hm]
  | some m =>
    cases hs : ind.macdSig with
    | none => simp [macdRule, hm, hs]
    | some s =>
      by_cases hne : m ≠ 0 ∧ s ≠ 0
      · by_cases hbull : s < m ∧ optPos ind.macdHist = true
        · have hv : macdRule ind = (SubSig.buy, (1 : ℚ)/4, [Reason.macdBullish]) := by
            simp only [macdRule, hm, hs]
            rw [if_pos hne, if_pos hbull]
          rw [hv]
          simp [hm, hs, hne.1, hne.2, hbull.1, hbull.2, lt_asymm hbull.1]
        · by_cases hbear : m < s ∧ optNeg ind.macdHist = true
          · have hv : macdRule ind = (SubSig.sell, -((1 : ℚ)/4), [Reason.macdBearish]) := by
              simp only [macdRule, hm, hs]
              rw [if_pos hne, if_neg hbull, if_pos hbear]
            rw [hv]
            simp [hm, hs, hne.1, hne.2, hbear.1, hbear.2, lt_asymm hbear.1]
          · have hv : macdRule ind = (SubSig.neutral, 0, []) := by
              simp only [macdRule, hm, hs]
              rw [if_pos hne, if_neg hbull, if_neg hbear]
            rw [hv]
            simp only [not_and_or] at hbull hbear
            simp [hm, hs, hne.1, hne.2]
            constructor
            · intro h1
              rcases hbull with h | h
              · exact absurd h1 h
              · cases hp : optPos ind.macdHist
                · rfl
                · exact absurd hp h
            · intro h1
              rcases hbear with h | h
              · exact absurd h1 h
              · cases hp : optNeg ind.macdHist
                · rfl
                · exact absurd hp h
      · have hv : macdRule ind = (SubSig.neutral, 0, []) := by
          simp only [macdRule, hm, hs]
          rw [if_neg hne]
        rw [hv]
        rw [not_and_or] at hne
        rcases hne with h | h <;> simp [hm, hs, not_not.mp h]

theorem bbRule_reasons (ind : Snapshot) :
    (Reason.atLowerBand ∈ (bbRule ind).2.2 ↔
      ∃ u l2, ind.bbUpper = some u ∧ ind.bbLower = some l2 ∧
        ind.currentPrice ≠ 0 ∧ u ≠ 0 ∧ l2 ≠ 0 ∧ ind.currentPrice ≤ l2) ∧
    (Reason.atUpperBand ∈ (bbRule ind).2.2 ↔
      ∃ u l2, ind.bbUpper = some u ∧ ind.bbLower = some l2 ∧
        ind.currentPrice ≠ 0 ∧ u ≠ 0 ∧ l2 ≠ 0 ∧
        ¬ ind.currentPrice ≤ l2 ∧ u ≤ ind.currentPrice) ∧
    (∀ x ∈ (bbRule ind).2.2, x = Reason.atLowerBand ∨ x = Reason.atUpperBand) ∧
    (bbRule ind).2.1 =
      (if Reason.atLowerBand ∈ (bbRule ind).2.2 then (1 : ℚ)/5 else 0) +
      (if Reason.atUpperBand ∈ (bbRule ind).2.2 then -((1 : ℚ)/5) else 0) := by
  cases hu : ind.bbUpper with
  | none => simp [bbRule, hu]
  | some u =>
    cases hl : ind.bbLower with
    | none => simp [bbRule, hu, hl]
    | some l2 =>
      by_cases hne : ind.currentPrice ≠ 0 ∧ u ≠ 0 ∧ l2 ≠ 0
      · by_cases hlow : ind.currentPrice ≤ l2
        · have hv : bbRule ind = (SubSig.buy, (1 : ℚ)/5, [Reason.atLowerBand]) := by
            simp only [bbRule, hu, hl]
            rw [if_pos hne, if_pos hlow]
          rw [hv]
          simp [hu, hl, hne.1, hne.2.1, hne.2.2, hlow]
        · by_cases hup : u ≤ ind.currentPrice
          · have hv : bbRule ind = (SubSig.sell, -((1 : ℚ)/5), [Reason.atUpperBand]) := by
              simp only [bbRule, hu, hl]
              rw [if_pos hne, if_neg hlow, if_pos hup]
            rw [hv]
            simp [hu, hl, hne.1, hne.2.1, hne.2.2, hlow, hup, not_le.mp hlow]
          · have hv : bbRule ind = (SubSig.neutral, 0, []) := by
              simp only [bbRule, hu, hl]
              rw [if_pos hne, if_neg hlow, if_neg hup]
            rw [hv]
            simp [hu, hl, hne.1, hne.2.1, hne.2.2, hlow, hup]
      · have hv : bbRule ind = (SubSig.neutral, 0, []) := by
          simp only [bbRule, hu, hl]
          rw [if_neg hne]
        rw [hv]
        rw [not_and_or, not_and_or] at hne
        rcases hne with h | h | h <;> simp [hu, hl, not_not.mp h]

theorem generateSignals_reasons_eq (os ob : ℚ) (ind : Snapshot) :
    (generateSignals os ob ind).reasons =
      (rsiRule os ob ind).2.2 ++ (maRule ind).2.2 ++ (macdRule ind).2.2 ++
        (bbRule ind).2.2 := rfl

theorem generateSignals_strength_eq (os ob : ℚ) (ind : Snapshot) :
    (generateSignals os ob ind).strength =
      (rsiRule os ob ind).2.1 + (maRule ind).2.1 + (macdRule ind).2.1 +
        (bbRule ind).2.1 := rfl

/-! ### Claim C4 -/

/-- C4 counterexample: the MACD rule's required values are all defined
(macd = 0, signal = −1, histogram = 1), `macd > signal` and `histogram > 0`
hold, yet no strength is contributed and no reason recorded: the source
guards the rule with Python truthiness (`if indicators['macd'] and ...`), so
a defined macd value of exactly 0.0 skips the rule. -/
theorem C4_truthiness_counterexample :
    (0 : ℚ) > -1 ∧ (1 : ℚ) > 0 ∧
    (generateSignals 30 70
      ⟨100, none, none, none, none, none, none, none, none,
        some 0, some (-1), some 1⟩).strength = 0 ∧
    (generateSignals 30 70
      ⟨100, none, none, none, none, none, none, none, none,
        some 0, some (-1), some 1⟩).reasons = [] := by
  refine ⟨by norm_num, by norm_num, ?_, ?_⟩ <;>
    norm_num [generateSignals, rsiRule, maRule, macdRule, bbRule]

/-- C4 amended: each signal rule contributes its Δstrength and its reason
exactly when its table condition holds AND its guard passes; the RSI rule's
guard is definedness alone, but the MA, MACD and Bollinger rules use Python
truthiness, so they also skip when a required defined value equals 0 (for the
Bollinger rule this includes the current price).  The second branch of the
RSI, MA, MACD pairs is mutually exclusive with the first; the upper-band rule
additionally requires the lower-band branch not to have fired.  The summed
strength is exactly the sum of the per-rule contributions tied to the
recorded reasons. -/
theorem C4_signal_rules_amended (os ob : ℚ) (hoo : os ≤ ob) (ind : Snapshot) :
    ((Reason.rsiOversold ∈ (generateSignals os ob ind).reasons) ↔
      (∃ r, ind.rsi = some r ∧ r < os)) ∧
    ((Reason.rsiOverbought ∈ (generateSignals os ob ind).reasons) ↔
      (∃ r, ind.rsi = some r ∧ ob < r)) ∧
    ((Reason.goldenCross ∈ (generateSignals os ob ind).reasons) ↔
      (∃ a b2, ind.smaShort = some a ∧ ind.smaLong = some b2 ∧
        a ≠ 0 ∧ b2 ≠ 0 ∧ b2 < a)) ∧
    ((Reason.deathCross ∈ (generateSignals os ob ind).reasons) ↔
      (∃ a b2, ind.smaShort = some a ∧ ind.smaLong = some b2 ∧
        a ≠ 0 ∧ b2 ≠ 0 ∧ a < b2)) ∧
    ((Reason.macdBullish ∈ (generateSignals os ob ind).reasons) ↔
      (∃ m s h, ind.macd = some m ∧ ind.macdSig = some s ∧ ind.macdHist = some h ∧
        m ≠ 0 ∧ s ≠ 0 ∧ s < m ∧ 0 < h)) ∧
    ((Reason.macdBearish ∈ (generateSignals os ob ind).reasons) ↔
      (∃ m s h, ind.macd = some m ∧ ind.macdSig = some s ∧ ind.macdHist = some h ∧
        m ≠ 0 ∧ s ≠ 0 ∧ m < s ∧ h < 0)) ∧
    ((Reason.atLowerBand ∈ (generateSignals os ob ind).reasons) ↔
      (∃ u l2, ind.bbUpper = some u ∧ ind.bbLower = some l2 ∧
        ind.currentPrice ≠ 0 ∧ u ≠ 0 ∧ l2 ≠ 0 ∧ ind.currentPrice ≤ l2)) ∧
    ((Reason.atUpperBand ∈ (generateSignals os ob ind).reasons) ↔
      (∃ u l2, ind.bbUpper = some u ∧ ind.bbLower = some l2 ∧
        ind.currentPrice ≠ 0 ∧ u ≠ 0 ∧ l2 ≠ 0 ∧
        ¬ ind.currentPrice ≤ l2 ∧ u ≤ ind.currentPrice)) ∧
    (generateSignals os ob ind).strength =
      (if Reason.rsiOversold ∈ (generateSignals os ob ind).reasons then (3 : ℚ)/10 else 0) +
      (if Reason.rsiOverbought ∈ (generateSignals os ob ind).reasons then -((3 : ℚ)/10) else 0) +
      (if Reason.goldenCross ∈ (generateSignals os ob ind).reasons then (1 : ℚ)/4 else 0) +
      (if Reason.deathCross ∈ (generateSignals os ob ind).reasons then -((1 : ℚ)/4) else 0) +
      (if Reason.macdBullish ∈ (generateSignals os ob ind).reasons then (1 : ℚ)/4 else 0) +
      (if Reason.macdBearish ∈ (generateSignals os ob ind).reasons then -((1 : ℚ)/4) else 0) +
      (if Reason.atLowerBand ∈ (generateSignals os ob ind).reasons then (1 : ℚ)/5 else 0) +
      (if Reason.atUpperBand ∈ (generateSignals os ob ind).reasons then -((1 : ℚ)/5) else 0) := by
  obtain ⟨hA1, hA2, hAall, hAs⟩ := rsiRule_reasons os ob ind hoo
  obtain ⟨hB1, hB2, hBall, hBs⟩ := maRule_reasons ind
  obtain ⟨hC1, hC2, hCall, hCs⟩ := macdRule_reasons ind
  obtain ⟨hD1, hD2, hDall, hDs⟩ := bbRule_reasons ind
  have memTr : ∀ x : Reason, x ∈ (generateSignals os ob ind).reasons ↔
      (x ∈ (rsiRule os ob ind).2.2 ∨ x ∈ (maRule ind).2.2 ∨
        x ∈ (macdRule ind).2.2 ∨ x ∈ (bbRule ind).2.2) := by
    intro x
    rw [generateSignals_reasons_eq]
    simp [List.mem_append, or_assoc]
  have hOS : Reason.rsiOversold ∈ (generateSignals os ob ind).reasons ↔
      Reason.rsiOversold ∈ (rsiRule os ob ind).2.2 := by
    rw [memTr]
    constructor
    · rintro (h | h | h | h)
      · exact h
      · rcases hBall _ h with h2 | h2 <;> simp at h2
      · rcases hCall _ h with h2 | h2 <;> simp at h2
      · rcases hDall _ h with h2 | h2 <;> simp at h2
    · exact Or.inl
  have hOB : Reason.rsiOverbought ∈ (generateSignals os ob ind).reasons ↔
      Reason.rsiOverbought ∈ (rsiRule os ob ind).2.2 := by
    rw [memTr]
    constructor
    · rintro (h | h | h | h)
      · exact h
      · rcases hBall _ h with h2 | h2 <;> simp at h2
      · rcases hCall _ h with h2 | h2 <;> simp at h2
      · rcases hDall _ h with h2 | h2 <;> simp at h2
    · exact Or.inl
  have hGC : Reason.goldenCross ∈ (generateSignals os ob ind).reasons ↔
      Reason.goldenCross ∈ (maRule ind).2.2 := by
    rw [memTr]
    constructor
    · rintro (h | h | h | h)
      · rcases hAall _ h with h2 | h2 <;> simp at h2
      · exact h
      · rcases hCall _ h with h2 | h2 <;> simp at h2
      · rcases hDall _ h with h2 | h2 <;> simp at h2
    · exact fun h => Or.inr (Or.inl h)
  have hDC : Reason.deathCross ∈ (generateSignals os ob ind).reasons ↔
      Reason.deathCross ∈ (maRule ind).2.2 := by
    rw [memTr]
    constructor
    · rintro (h | h | h | h)
      · rcases hAall _ h with h2 | h2 <;> simp at h2
      · exact h
      · rcases hCall _ h with h2 | h2 <;> simp at h2
      · rcases hDall _ h with h2 | h2 <;> simp at h2
    · exact fun h => Or.inr (Or.inl h)
  have hMB : Reason.macdBullish ∈ (generateSignals os ob ind).reasons ↔
      Reason.macdBullish ∈ (macdRule ind).2.2 := by
    rw [memTr]
    constructor
    · rintro (h | h | h | h)
      · rcases hAall _ h with h2 | h2 <;> simp at h2
      · rcases hBall _ h with h2 | h2 <;> simp at h2
      · exact h
      · rcases hDall _ h with h2 | h2 <;> simp at h2
    · exact fun h => Or.inr (Or.inr (Or.inl h))
  have hME : Reason.macdBearish ∈ (generateSignals os ob ind).reasons ↔
      Reason.macdBearish ∈ (macdRule ind).2.2 := by
    rw [memTr]
    constructor
    · rintro (h | h | h | h)
      · rcases hAall _ h with h2 | h2 <;> simp at h2
      · rcases hBall _ h with h2 | h2 <;> simp at h2
      · exact h
      · rcases hDall _ h with h2 | h2 <;> simp at h2
    · exact fun h => Or.inr (Or.inr (Or.inl h))
  have hLB : Reason.atLowerBand ∈ (generateSignals os ob ind).reasons ↔
      Reason.atLowerBand ∈ (bbRule ind).2.2 := by
    rw [memTr]
    constructor
    · rintro (h | h | h | h)
      · rcases hAall _ h with h2 | h2 <;> simp at h2
      · rcases hBall _ h with h2 | h2 <;> simp at h2
      · rcases hCall _ h with h2 | h2 <;> simp at h2
      · exact h
    · exact fun h => Or.inr (Or.inr (Or.inr h))
  have hUB : Reason.atUpperBand ∈ (generateSignals os ob ind).reasons ↔
      Reason.atUpperBand ∈ (bbRule ind).2.2 := by
    rw [memTr]
    constructor
    · rintro (h | h | h | h)
      · rcases hAall _ h with h2 | h2 <;> simp at h2
      · rcases hBall _ h with h2 | h2 <;> simp at h2
      · rcases hCall _ h with h2 | h2 <;> simp at h2
      · exact h
    · exact fun h => Or.inr (Or.inr (Or.inr h))
  have hposconv : (∃ m s, ind.macd = some m ∧ ind.macdSig = some s ∧
      m ≠ 0 ∧ s ≠ 0 ∧ s < m ∧ optPos ind.macdHist = true) ↔
      (∃ m s h, ind.macd = some m ∧ ind.macdSig = some s ∧ ind.macdHist = some h ∧
        m ≠ 0 ∧ s ≠ 0 ∧ s < m ∧ 0 < h) := by
    constructor
    · rintro ⟨m, s, h1, h2, h3, h4, h5, h6⟩
      obtain ⟨h, hh, hp⟩ := (optPos_iff _).mp h6
      exact ⟨m, s, h, h1, h2, hh, h3, h4, h5, hp⟩
    · rintro ⟨m, s, h, h1, h2, hh, h3, h4, h5, hp⟩
      exact ⟨m, s, h1, h2, h3, h4, h5, (optPos_iff _).mpr ⟨h, hh, hp⟩⟩
  have hnegconv : (∃ m s, ind.macd = some m ∧ ind.macdSig = some s ∧
      m ≠ 0 ∧ s ≠ 0 ∧ m < s ∧ optNeg ind.macdHist = true) ↔
      (∃ m s h, ind.macd = some m ∧ ind.macdSig = some s ∧ ind.macdHist = some h ∧
        m ≠ 0 ∧ s ≠ 0 ∧ m < s ∧ h < 0) := by
    constructor
    · rintro ⟨m, s, h1, h2, h3, h4, h5, h6⟩
      obtain ⟨h, hh, hp⟩ := (optNeg_iff _).mp h6
      exact ⟨m, s, h, h1, h2, hh, h3, h4, h5, hp⟩
    · rintro ⟨m, s, h, h1, h2, hh, h3, h4, h5, hp⟩
      exact ⟨m, s, h1, h2, h3, h4, h5, (optNeg_iff _).mpr ⟨h, hh, hp⟩⟩
  refine ⟨hOS.trans hA1, hOB.trans hA2, hGC.trans hB1, hDC.trans hB2,
    (hMB.trans hC1).trans hposconv, (hME.trans hC2).trans hnegconv,
    hLB.trans hD1, hUB.trans hD2, ?_⟩
  rw [generateSignals_strength_eq, hAs, hBs, hCs, hDs]
  simp only [← hOS, ← hOB, ← hGC, ← hDC, ← hMB, ← hME, ← hLB, ← hUB]
  ring

/-- Witness for the amended C4 at the default thresholds and an all-undefined
snapshot. -/
theorem C4_signal_rules_amended_witness :
    (30 : ℚ) ≤ 70 ∧
    (((Reason.rsiOversold ∈ (generateSignals 30 70
      ⟨100, none, none, none, none, none, none, none, none, none, none, none⟩).reasons) ↔
      (∃ r, (⟨100, none, none, none, none, none, none, none, none, none, none, none⟩ :
        Snapshot).rsi = some r ∧ r < 30)) ∧
    ((Reason.rsiOverbought ∈ (generateSignals 30 70
      ⟨100, none, none, none, none, none, none, none, none, none, none, none⟩).reasons) ↔
      (∃ r, (⟨100, none, none, none, none, none, none, none, none, none, none, none⟩ :
        Snapshot).rsi = some r ∧ 70 < r)) ∧
    ((Reason.goldenCross ∈ (generateSignals 30 70
      ⟨100, none, none, none, none, none, none, none, none, none, none, none⟩).reasons) ↔
      (∃ a b2, (⟨100, none, none, none, none, none, none, none, none, none, none, none⟩ :
        Snapshot).smaShort = some a ∧
        (⟨100, none, none, none, none, none, none, none, none, none, none, none⟩ :
        Snapshot).smaLong = some b2 ∧ a ≠ 0 ∧ b2 ≠ 0 ∧ b2 < a)) ∧
    ((Reason.deathCross ∈ (generateSignals 30 70
      ⟨100, none, none, none, none, none, none, none, none, none, none, none⟩).reasons) ↔
      (∃ a b2, (⟨100, none, none, none, none, none, none, none, none, none, none, none⟩ :
        Snapshot).smaShort = some a ∧
        (⟨100, none, none, none, none, none, none, none, none, none, none, none⟩ :
        Snapshot).smaLong = some b2 ∧ a ≠ 0 ∧ b2 ≠ 0 ∧ a < b2)) ∧
    ((Reason.macdBullish ∈ (generateSignals 30 70
      ⟨100, none, none, none, none, none, none, none, none, none, none, none⟩).reasons) ↔
      (∃ m s h, (⟨100, none, none, none, none, none, none, none, none, none, none, none⟩ :
        Snapshot).macd = some m ∧
        (⟨100, none, none, none, none, none, none, none, none, none, none, none⟩ :
        Snapshot).macdSig = some s ∧
        (⟨100, none, none, none, none, none, none, none, none, none, none, none⟩ :
        Snapshot).macdHist = some h ∧ m ≠ 0 ∧ s ≠ 0 ∧ s < m ∧ 0 < h)) ∧
    ((Reason.macdBearish ∈ (generateSignals 30 70
      ⟨100, none, none, none, none, none, none, none, none, none, none, none⟩).reasons) ↔
      (∃ m s h, (⟨100, none, none, none, none, none, none, none, none, none, none, none⟩ :
        Snapshot).macd = some m ∧
        (⟨100, none, none, none, none, none, none, none, none, none, none, none⟩ :
        Snapshot).macdSig = some s ∧
        (⟨100, none, none, none, none, none, none, none, none, none, none, none⟩ :
        Snapshot).macdHist = some h ∧ m ≠ 0 ∧ s ≠ 0 ∧ m < s ∧ h < 0)) ∧
    ((Reason.atLowerBand ∈ (generateSignals 30 70
      ⟨100, none, none, none, none, none, none, none, none, none, none, none⟩).reasons) ↔
      (∃ u l2, (⟨100, none, none, none, none, none, none, none, none, none, none, none⟩ :
        Snapshot).bbUpper = some u ∧
        (⟨100, none, none, none, none, none, none, none, none, none, none, none⟩ :
        Snapshot).bbLower = some l2 ∧
        (⟨100, none, none, none, none, none, none, none, none, none, none, none⟩ :
        Snapshot).currentPrice ≠ 0 ∧ u ≠ 0 ∧ l2 ≠ 0 ∧
        (⟨100, none, none, none, none, none, none, none, none, none, none, none⟩ :
        Snapshot).currentPrice ≤ l2)) ∧
    ((Reason.atUpperBand ∈ (generateSignals 30 70
      ⟨100, none, none, none, none, none, none, none, none, none, none, none⟩).reasons) ↔
      (∃ u l2, (⟨100, none, none, none, none, none, none, none, none, none, none, none⟩ :
        Snapshot).bbUpper = some u ∧
        (⟨100, none, none, none, none, none, none, none, none, none, none, none⟩ :
        Snapshot).bbLower = some l2 ∧
        (⟨100, none, none, none, none, none, none, none, none, none, none, none⟩ :
        Snapshot).currentPrice ≠ 0 ∧ u ≠ 0 ∧ l2 ≠ 0 ∧
        ¬ (⟨100, none, none, none, none, none, none, none, none, none, none, none⟩ :
        Snapshot).currentPrice ≤ l2 ∧
        u ≤ (⟨100, none, none, none, none, none, none, none, none, none, none, none⟩ :
        Snapshot).currentPrice)) ∧
    (generateSignals 30 70
      ⟨100, none, none, none, none, none, none, none, none, none, none, none⟩).strength =
      (if Reason.rsiOversold ∈ (generateSignals 30 70
        ⟨100, none, none, none, none, none, none, none, none, none, none, none⟩).reasons
        then (3 : ℚ)/10 else 0) +
      (if Reason.rsiOverbought ∈ (generateSignals 30 70
        ⟨100, none, none, none, none, none, none, none, none, none, none, none⟩).reasons
        then -((3 : ℚ)/10) else 0) +
      (if Reason.goldenCross ∈ (generateSignals 30 70
        ⟨100, none, none, none, none, none, none, none, none, none, none, none⟩).reasons
        then (1 : ℚ)/4 else 0) +
      (if Reason.deathCross ∈ (generateSignals 30 70
        ⟨100, none, none, none, none, none, none, none, none, none, none, none⟩).reasons
        then -((1 : ℚ)/4) else 0) +
      (if Reason.macdBullish ∈ (generateSignals 30 70
        ⟨100, none, none, none, none, none, none, none, none, none, none, none⟩).reasons
        then (1 : ℚ)/4 else 0) +
      (if Reason.macdBearish ∈ (generateSignals 30 70
        ⟨100, none, none, none, none, none, none, none, none, none, none, none⟩).reasons
        then -((1 : ℚ)/4) else 0) +
      (if Reason.atLowerBand ∈ (generateSignals 30 70
        ⟨100, none, none, none, none, none, none, none, none, none, none, none⟩).reasons
        then (1 : ℚ)/5 else 0) +
      (if Reason.atUpperBand ∈ (generateSignals 30 70
        ⟨100, none, none, none, none, none, none, none, none, none, none, none⟩).reasons
        then -((1 : ℚ)/5) else 0)) :=
  ⟨by norm_num, C4_signal_rules_amended 30 70 (by norm_num)
    ⟨100, none, none, none, none, none, none, none, none, none, none, none⟩⟩

end StockAssist
